import Mathlib

/-!
# go-sms-sdk: registry and Aliyun signer

A shallow embedding of `pkg/sms/manager.go` (the provider registry), of the
signing steps and string-building helpers of `pkg/providers/aliyun/aliyun.go`
and of `internal/utils/utils.go`, followed by theorems about them.

Modelling conventions.

* A Go `map[string]V` is the list of its entries (`GoMap V`). The order of the
  list is one possible `range` traversal order; the operations `get`, `set`
  and `delete` do not depend on it. Statements about "any traversal order"
  quantify over permutations of the list.
* An `SMS` interface value is `none` (the nil interface) or `some p`, where
  `p` identifies a provider value. The dynamic type of `p`, and whether that
  type can be compared at all, are given by a `TypeInfo`; `==` on two
  interface values is `ifaceEq`, which panics when both hold values of the
  same dynamic type and that type is not comparable (a slice, map or
  function type), and is equality of the identities otherwise.
* A Go `error` is its message (`Option String`, `none` for a nil error).
* The registry methods are steps from a state to a result and a state, as
  in a sequential use. The locks of the source appear only where the two
  critical sections of `SetDefault` are modelled: each region between a lock
  and its unlock is one atomic step, and steps of different goroutines may
  interleave.
* Where the identity of a map matters (`GetProviders`), maps are objects of a
  heap and a map value is an address.
* A Go string is the text it holds (well-formed UTF-8): `len` and indexing
  refer to its UTF-8 bytes, `range` to its characters. Digest functions
  (SHA-256, HMAC-SHA256) and `json.Unmarshal` are parameters.
* Functions of the Go standard library whose exact behaviour on arbitrary
  Unicode input is not needed (`strings.ToLower`, `strings.TrimSpace`, the
  JSON encoders of keys and values) are parameters of the definitions that
  call them; ASCII instances are given for evaluation on concrete inputs.
-/

namespace GoSmsSdk

/-! ## Go maps -/

/-- A Go `map[string]V`: the list of its entries. -/
abbrev GoMap (V : Type) := List (String × V)

namespace GoMap

variable {V : Type}

/-- The comma-ok lookup `v, ok := m[k]`: `some v` when `ok`, `none` otherwise. -/
def get : GoMap V → String → Option V
  | [], _ => none
  | (k', v) :: rest, k => if k' = k then some v else get rest k

/-- The plain index expression `m[k]`, which yields the zero value `zero` of
the element type when the key is absent. -/
def index (zero : V) (m : GoMap V) (k : String) : V :=
  (get m k).getD zero

/-- The statement `delete(m, k)`. -/
def delete (m : GoMap V) (k : String) : GoMap V :=
  m.filter (fun e => decide (e.1 ≠ k))

/-- The assignment `m[k] = v`: the entry for `k`, if any, is replaced. -/
def set (m : GoMap V) (k : String) (v : V) : GoMap V :=
  (k, v) :: delete m k

/-- The names `for k := range m` ranges over. -/
def keys (m : GoMap V) : List String :=
  m.map Prod.fst

end GoMap

/-! ## `pkg/sms/interface.go` -/

/-- A value of Go type `any` used as a template parameter. -/
inductive GoAny where
  | str (s : String)
  | int (i : Int)
  | bool (b : Bool)
  | null
  | unsupported
deriving DecidableEq, Repr

/-- The struct `SendRequest`; `TemplateParam` is `none` for a nil map. -/
structure SendRequest where
  PhoneNumbers : String
  SignName : String
  TemplateCode : String
  TemplateParam : Option (GoMap GoAny)
deriving DecidableEq, Repr

/-- The struct `SendResponse`; `Data` is `none` for a nil map. -/
structure SendResponse where
  Success : Bool
  Message : String
  Code : String
  RequestId : String
  BizId : String
  Data : Option (GoMap GoAny)
deriving DecidableEq, Repr

/-- An `SMS` interface value: `none` is the nil interface, `some p` holds the
provider object with identity `p`. -/
abbrev SMS := Option Nat

/-- A `context.Context`, identified by a number. -/
abbrev Context := Nat

/-- What a call `sms.Send(ctx, req)` does: it returns a pair
`(*SendResponse, error)`, or panics (a method call on the nil interface). -/
inductive CallResult where
  | returned (resp : Option SendResponse) (err : Option String)
  | panicked
deriving DecidableEq, Repr

/-- The `Send` methods of the provider objects, by identity. -/
abbrev Impl := Nat → Context → SendRequest → CallResult

/-- One invocation of a provider's `Send`. -/
abbrev Call := Nat × Context × SendRequest

/-- The method call `sms.Send(ctx, req)` on an interface value, with the list
of provider invocations it makes. -/
def callSend (impl : Impl) (sms : SMS) (ctx : Context) (req : SendRequest) :
    CallResult × List Call :=
  match sms with
  | none => (CallResult.panicked, [])
  | some p => (impl p ctx req, [(p, ctx, req)])

/-- What is known of the dynamic types of the provider values: `typeOf p` is
the dynamic type of `p`, and `comparable t` tells whether values of the type
`t` can be compared with `==` (pointer types and structs of comparable fields
can, slice, map and function types cannot). -/
structure TypeInfo where
  typeOf : Nat → Nat
  comparable : Nat → Bool

/-- The comparison `a == b` of two interface values: `some b` when it yields
`b`, `none` when it panics. Two nil interfaces are equal, a nil and a non-nil
one are not, values of different dynamic types are not; values of the same
dynamic type are compared when the type is comparable, and the comparison
panics when it is not. -/
def ifaceEq (ti : TypeInfo) : SMS → SMS → Option Bool
  | none, none => some true
  | none, some _ => some false
  | some _, none => some false
  | some p, some q =>
    if ti.typeOf p ≠ ti.typeOf q then some false
    else if ti.comparable (ti.typeOf p) then some (decide (p = q))
    else none

/-- What a call of a method with the one result `error` does: it returns an
error (`none` for nil), or panics. -/
inductive ErrorResult where
  | returned (err : Option String)
  | panicked
deriving DecidableEq, Repr

/-! ## `pkg/sms/manager.go` -/

/-- The struct `SMSManager` without its lock. -/
structure SMSManager where
  providers : GoMap SMS
  defaultSMS : SMS
deriving DecidableEq, Repr

/-- The constructor `NewSMSManager`. -/
def NewSMSManager : SMSManager :=
  { providers := [], defaultSMS := none }

namespace SMSManager

/-- The error `fmt.Errorf("provider %s not found", name)`. -/
def errNotFound (name : String) : String :=
  "provider " ++ name ++ " not found"

/-- The error `fmt.Errorf("no default SMS provider configured")`. -/
def errNoDefault : String :=
  "no default SMS provider configured"

/-- The method `Register`. -/
def Register (m : SMSManager) (name : String) (sms : SMS) : SMSManager :=
  { m with providers := m.providers.set name sms }

/-- The method `SetDefault`: the returned error and the state afterwards. -/
def SetDefault (m : SMSManager) (name : String) : Option String × SMSManager :=
  match m.providers.get name with
  | none => (some (errNotFound name), m)
  | some sms => (none, { m with defaultSMS := sms })

/-- The method `Send`: the result, the provider invocations made, the state afterwards. -/
def Send (impl : Impl) (m : SMSManager) (ctx : Context) (req : SendRequest) :
    CallResult × List Call × SMSManager :=
  if m.defaultSMS = none then
    (CallResult.returned none (some errNoDefault), [], m)
  else
    let sms := m.defaultSMS
    ((callSend impl sms ctx req).1, (callSend impl sms ctx req).2, m)

/-- The method `SendWithProvider`: the result, the provider invocations made, the
state afterwards. -/
def SendWithProvider (impl : Impl) (m : SMSManager) (ctx : Context) (provider : String)
    (req : SendRequest) : CallResult × List Call × SMSManager :=
  match m.providers.get provider with
  | none => (CallResult.returned none (some (errNotFound provider)), [], m)
  | some sms => ((callSend impl sms ctx req).1, (callSend impl sms ctx req).2, m)

/-- The method `GetProvider`: the returned pair `(SMS, error)` and the state afterwards. -/
def GetProvider (m : SMSManager) (name : String) : (SMS × Option String) × SMSManager :=
  match m.providers.get name with
  | none => ((none, some (errNotFound name)), m)
  | some sms => ((sms, none), m)

/-- The method `RemoveProvider`: what the call does and the state afterwards. The
comparison `m.providers[name] == m.defaultSMS` may panic; it is evaluated
before anything is changed, so the state is then as before. -/
def RemoveProvider (ti : TypeInfo) (m : SMSManager) (name : String) :
    ErrorResult × SMSManager :=
  match m.providers.get name with
  | none => (ErrorResult.returned (some (errNotFound name)), m)
  | some _ =>
    match ifaceEq ti (m.providers.index none name) m.defaultSMS with
    | none => (ErrorResult.panicked, m)
    | some isDefault =>
      let m1 : SMSManager := if isDefault then { m with defaultSMS := none } else m
      (ErrorResult.returned none, { m1 with providers := m1.providers.delete name })

end SMSManager

/-- A mutating call on the registry. -/
inductive Op where
  | register (name : String) (sms : SMS)
  | setDefault (name : String)
  | removeProvider (name : String)
deriving DecidableEq, Repr

/-- The state after one call. -/
def Op.apply (ti : TypeInfo) (m : SMSManager) : Op → SMSManager
  | Op.register name sms => m.Register name sms
  | Op.setDefault name => (m.SetDefault name).2
  | Op.removeProvider name => (m.RemoveProvider ti name).2

/-- The state after a sequence of calls on a fresh registry. -/
def runOps (ti : TypeInfo) (ops : List Op) : SMSManager :=
  ops.foldl (Op.apply ti) NewSMSManager

/-- The default, if set, is a value of the providers mapping. -/
def DefaultPresent (m : SMSManager) : Prop :=
  m.defaultSMS ≠ none → ∃ name, m.providers.get name = some m.defaultSMS

/-! ## Standard-library functions used by the Aliyun provider -/

/-- The order `<` of Go strings on the characters of two strings:
lexicographic, character by character. (Go compares the UTF-8 bytes; on
well-formed UTF-8 that is the order of the code points.) -/
def ltChars : List Char → List Char → Bool
  | [], [] => false
  | [], _ :: _ => true
  | _ :: _, [] => false
  | a :: as, b :: bs =>
    if a.toNat < b.toNat then true
    else if b.toNat < a.toNat then false
    else ltChars as bs

/-- Go's `a <= b` on strings. -/
def strLe (a b : String) : Bool :=
  !ltChars b.data a.data

/-- The function `sort.Strings`: the list in ascending order. -/
def sortStrings (l : List String) : List String :=
  l.insertionSort (fun a b => strLe a b = true)

/-- The function `strings.Join(elems, sep)`. -/
def stringsJoin : List String → String → String
  | [], _ => ""
  | [a], _ => a
  | a :: b :: rest, sep => a ++ sep ++ stringsJoin (b :: rest) sep

/-- The function `strings.ToLower` on ASCII letters; other characters are kept. -/
def asciiToLower (s : String) : String :=
  String.mk (s.data.map fun c =>
    if 65 ≤ c.toNat ∧ c.toNat ≤ 90 then Char.ofNat (c.toNat + 32) else c)

/-- The ASCII characters `strings.TrimSpace` removes. -/
def isAsciiSpace (c : Char) : Bool :=
  c.toNat = 32 || (9 ≤ c.toNat && c.toNat ≤ 13)

/-- The function `strings.TrimSpace` for ASCII white space. -/
def asciiTrimSpace (s : String) : String :=
  String.mk ((s.data.dropWhile isAsciiSpace).reverse.dropWhile isAsciiSpace).reverse

/-- The function `json.Marshal` on a `map[string]any`: the entries in ascending key order,
each as `key:value`, separated by commas, between braces; an error (`none`)
when a value cannot be encoded. `encKey` is the encoding of a key as a JSON
string and `encVal` the encoding of a value. -/
def jsonMarshal (encKey : String → String) (encVal : GoAny → Option String)
    (m : GoMap GoAny) : Option String :=
  let parts := (sortStrings m.keys).map fun k =>
    (encVal (m.index GoAny.null k)).map fun v => encKey k ++ ":" ++ v
  if parts.all Option.isSome then
    some ("\x7b" ++ stringsJoin (parts.map fun p => p.getD "") "," ++ "\x7d")
  else
    none

/-! ## `pkg/providers/aliyun/aliyun.go` -/

/-- The method `buildTemplateParam`; `params` is `none` for a nil map. -/
def buildTemplateParam (encKey : String → String) (encVal : GoAny → Option String)
    (params : Option (GoMap GoAny)) : String :=
  match params with
  | none => ""
  | some m =>
    match jsonMarshal encKey encVal m with
    | none => ""
    | some data => data

/-- The method `buildCanonicalHeaders`: the canonical headers and the signed headers. -/
def buildCanonicalHeaders (toLower trimSpace : String → String) (headers : GoMap String) :
    String × String :=
  let keys := sortStrings (headers.keys.map toLower)
  let lines := keys.map fun k => k ++ ":" ++ trimSpace (headers.index "" k)
  (stringsJoin lines "\n" ++ "\n", stringsJoin keys ";")

/-! ## Encoders for evaluation, and the specified canonical form -/

/-- A JSON string literal for a key or value that needs no escaping. -/
def quoteString (s : String) : String :=
  "\"" ++ s ++ "\""

/-- The JSON encoding of a template-parameter value; `none` is an encoding
error. Strings are taken to need no escaping. -/
def encodeAny : GoAny → Option String
  | GoAny.str s => some (quoteString s)
  | GoAny.int i => some (toString i)
  | GoAny.bool b => some (if b then "true" else "false")
  | GoAny.null => some "null"
  | GoAny.unsupported => none

/-- The concatenation of a list of strings. -/
def concatAll : List String → String
  | [] => ""
  | a :: rest => a ++ concatAll rest

/-- The canonical form the specification gives for a header map: for the
entries `es` of the map arranged in strictly ascending order of their names,
the first string is the concatenation of `name:value\n` with the value
trimmed, the second the names joined by `;`. -/
def IsCanonicalForm (trimSpace : String → String) (headers : GoMap String)
    (result : String × String) : Prop :=
  ∃ es : GoMap String, es.Perm headers ∧
    es.keys.Pairwise (fun a b => ltChars a.data b.data = true) ∧
    result = (concatAll (es.map fun e => e.1 ++ ":" ++ trimSpace e.2 ++ "\n"),
              stringsJoin es.keys ";")

/-! ## Concrete inputs -/

/-- The six headers `Send` builds, for a fixed body hash, date and nonce. -/
def exampleHeaders : GoMap String :=
  [("host", "dysmsapi.aliyuncs.com"), ("x-acs-action", "SendSms"),
   ("x-acs-content-sha256", "e3b0c442"), ("x-acs-date", "2024-01-02T03:04:05Z"),
   ("x-acs-signature-nonce", "1704164645000000000"), ("x-acs-version", "2017-05-25")]

/-- Dynamic types as in the repository: every provider is a pointer such as
`*AliyunSMS`, of one comparable type. -/
def pointerTypes : TypeInfo :=
  { typeOf := fun _ => 0, comparable := fun _ => true }

/-- Dynamic types when every provider is a value of one slice type with the
two methods of `SMS`, such as `type sliceProv []int`: not comparable. -/
def sliceTypes : TypeInfo :=
  { typeOf := fun _ => 0, comparable := fun _ => false }

/-- A registry whose only provider is also its default. -/
def exampleManager : SMSManager :=
  { providers := [("aliyun", some 7)], defaultSMS := some 7 }

/-- A request as in the example program. -/
def exampleRequest : SendRequest :=
  { PhoneNumbers := "13800000000", SignName := "Acme", TemplateCode := "SMS_001",
    TemplateParam := some [("code", GoAny.str "123456")] }

/-- A provider implementation that answers every request with `Code` "OK". -/
def exampleImpl : Impl := fun _ _ _ =>
  CallResult.returned
    (some { Success := true, Message := "OK", Code := "OK", RequestId := "r1", BizId := "b1",
            Data := some [] })
    none

/-! ## `GetProviders` and the map objects it reads and creates -/

/-- The loop `for k, v := range m { providers[k] = v }` on a new empty map. -/
def copyMap (m : GoMap SMS) : GoMap SMS :=
  m.foldl (fun providers e => providers.set e.1 e.2) []

/-- The method `GetProviders`: the returned map and the state afterwards. -/
def SMSManager.GetProviders (m : SMSManager) : GoMap SMS × SMSManager :=
  (copyMap m.providers, m)

/-- The map objects that exist, by address. A Go map value is a reference to
one of them; two references to the same address are the same map. -/
abbrev MapHeap := List (GoMap SMS)

namespace MapHeap

/-- The contents of the map object at address `a`. -/
def load (h : MapHeap) (a : Nat) : GoMap SMS :=
  h.getD a []

/-- The heap after the contents of the map object at `a` are replaced. -/
def store (h : MapHeap) (a : Nat) (m : GoMap SMS) : MapHeap :=
  List.set h a m

end MapHeap

/-- The struct `SMSManager` with its field `providers` as a map reference. -/
structure ManagerObj where
  providers : Nat
  defaultSMS : SMS
deriving DecidableEq, Repr

namespace ManagerObj

/-- The registry state a manager object has in a heap. -/
def state (o : ManagerObj) (h : MapHeap) : SMSManager :=
  { providers := h.load o.providers, defaultSMS := o.defaultSMS }

/-- The method `GetProviders` on the heap: `make` allocates a new map object,
the loop stores every entry of the registry's map into it, and its address is
returned with the heap afterwards. -/
def GetProviders (o : ManagerObj) (h : MapHeap) : Nat × MapHeap :=
  let providers := h.length
  let h1 : MapHeap := h ++ [[]]
  (providers,
   (h.load o.providers).foldl
     (fun hh e => hh.store providers ((hh.load providers).set e.1 e.2)) h1)

end ManagerObj

/-! ## The critical sections of `SetDefault` -/

/-- Where a goroutine executing `SetDefault(name)` stands: before its read
section, between the read section and the write section holding the provider
it read, or returned with an error or with nil. -/
inductive SetDefaultPc where
  | start
  | checked (sms : SMS)
  | failed (err : String)
  | done
deriving DecidableEq, Repr

/-- One critical section of `SetDefault(name)`. From `start`, the section
under `RLock` reads `m.providers[name]` and returns the error if the name is
absent. From `checked sms`, the section under `Lock` assigns the default. -/
def SetDefaultPc.step (name : String) (m : SMSManager) : SetDefaultPc → SetDefaultPc × SMSManager
  | SetDefaultPc.start =>
    match m.providers.get name with
    | none => (SetDefaultPc.failed (SMSManager.errNotFound name), m)
    | some sms => (SetDefaultPc.checked sms, m)
  | SetDefaultPc.checked sms => (SetDefaultPc.done, { m with defaultSMS := sms })
  | SetDefaultPc.failed err => (SetDefaultPc.failed err, m)
  | SetDefaultPc.done => (SetDefaultPc.done, m)

/-- A registry with the provider 7 registered as "aliyun" and no default. -/
def exampleUnset : SMSManager :=
  { providers := [("aliyun", some 7)], defaultSMS := none }

/-- A registry with the provider 7 under two names, and as the default. -/
def exampleTwoNames : SMSManager :=
  { providers := [("aliyun", some 7), ("backup", some 7)], defaultSMS := some 7 }

/-- A heap with one map object, the providers of `exampleTwoNames`. -/
def exampleHeap : MapHeap :=
  [[("aliyun", some 7), ("backup", some 7)]]

/-- The manager object whose providers map is at address 0. -/
def exampleObj : ManagerObj :=
  { providers := 0, defaultSMS := some 7 }

/-! ## `internal/utils/utils.go` and the library functions it calls -/

/-- The UTF-8 encoding of a character, as byte values. -/
def utf8EncodeChar (c : Char) : List Nat :=
  if c.toNat < 128 then [c.toNat]
  else if c.toNat < 2048 then [192 + c.toNat / 64, 128 + c.toNat % 64]
  else if c.toNat < 65536 then
    [224 + c.toNat / 4096, 128 + c.toNat / 64 % 64, 128 + c.toNat % 64]
  else
    [240 + c.toNat / 262144, 128 + c.toNat / 4096 % 64, 128 + c.toNat / 64 % 64,
     128 + c.toNat % 64]

/-- The UTF-8 encoding of a list of characters. -/
def utf8EncodeChars : List Char → List Nat
  | [] => []
  | c :: rest => utf8EncodeChar c ++ utf8EncodeChars rest

/-- The bytes of the Go string that holds the text `s`: `len(s)` is the length
of this list and `s[i]` its element `i`, while `range s` yields the
characters of `s`. (Go strings that are not well-formed UTF-8 are not
represented.) -/
def utf8Bytes (s : String) : List Nat :=
  utf8EncodeChars s.data

/-- The loop of `ValidatePhoneNumber` over the characters: `false` at the
first character outside `'0'..'9'`, `true` at the end. -/
def digitsOnly : List Char → Bool
  | [] => true
  | c :: rest => if c.toNat < 48 ∨ c.toNat > 57 then false else digitsOnly rest

/-- The function `ValidatePhoneNumber`: `some b` when it returns `b`, `none` when the
index expression `phone[0]` is out of range and the call panics. -/
def ValidatePhoneNumber (phone : String) : Option Bool :=
  if (utf8Bytes phone).length ≠ 11 then some false
  else
    match (utf8Bytes phone).head? with
    | none => none
    | some b =>
      if b ≠ 49 then some false
      else some (digitsOnly phone.data)

/-- A digest of 32 bytes, as `sha256.Sum256` and an HMAC-SHA256 `Sum` return. -/
structure Digest where
  bytes : List (Fin 256)
  size : bytes.length = 32

/-- The digit `hextable[n]` of `encoding/hex`. -/
def lowerHexDigit (n : Nat) : Char :=
  ['0', '1', '2', '3', '4', '5', '6', '7', '8', '9', 'a', 'b', 'c', 'd', 'e', 'f'].getD n '0'

/-- The function `hex.EncodeToString`: two digits for every byte, high half first. -/
def hexEncode : List (Fin 256) → List Char
  | [] => []
  | b :: rest => lowerHexDigit (b.val / 16) :: lowerHexDigit (b.val % 16) :: hexEncode rest

/-- The function `SHA256Hash`; `sum256` is `sha256.Sum256` on the bytes of a string. -/
def SHA256Hash (sum256 : String → Digest) (data : String) : String :=
  String.mk (hexEncode (sum256 data).bytes)

/-- The function `HMACSHA256`; `hmacSum key msg` is the HMAC-SHA256 of `msg` under `key`. -/
def HMACSHA256 (hmacSum : String → String → Digest) (data key : String) : String :=
  String.mk (hexEncode (hmacSum key data).bytes)

/-- Whether `url.QueryEscape` escapes the byte `c` (`shouldEscape` in mode
`encodeQueryComponent`): letters, digits and `-`, `_`, `.`, `~` are kept. -/
def shouldEscape (c : Nat) : Bool :=
  if (97 ≤ c ∧ c ≤ 122) ∨ (65 ≤ c ∧ c ≤ 90) ∨ (48 ≤ c ∧ c ≤ 57) then false
  else if c = 45 ∨ c = 95 ∨ c = 46 ∨ c = 126 then false
  else true

/-- The digit `upperhex[n]` of `net/url`. -/
def upperHexDigit (n : Nat) : Char :=
  ['0', '1', '2', '3', '4', '5', '6', '7', '8', '9', 'A', 'B', 'C', 'D', 'E', 'F'].getD n '0'

/-- What `url.QueryEscape` writes for one byte: the byte itself, `+` for a
space, or `%` and two upper-case hexadecimal digits. -/
def escapeByte (c : Nat) : List Char :=
  if shouldEscape c then
    if c = 32 then ['+']
    else ['%', upperHexDigit (c / 16), upperHexDigit (c % 16)]
  else [Char.ofNat c]

/-- What `url.QueryEscape` writes for a list of bytes. -/
def escapeBytes : List Nat → List Char
  | [] => []
  | c :: rest => escapeByte c ++ escapeBytes rest

/-- The function `url.QueryEscape`. -/
def QueryEscape (s : String) : String :=
  String.mk (escapeBytes (utf8Bytes s))

/-- The scan of `strings.ReplaceAll` for a non-empty `old`: from left to right,
every occurrence of `old` that does not overlap an earlier one is replaced by
`new`; `skip` counts the characters of a replaced occurrence still to pass. -/
def replaceFrom (old new : List Char) : Nat → List Char → List Char
  | _, [] => []
  | skip + 1, _ :: rest => replaceFrom old new skip rest
  | 0, c :: rest =>
    if old.isPrefixOf (c :: rest) then new ++ replaceFrom old new (old.length - 1) rest
    else c :: replaceFrom old new 0 rest

/-- The function `strings.ReplaceAll(s, old, new)` for a non-empty `old`. -/
def stringsReplaceAll (s old new : String) : String :=
  String.mk (replaceFrom old.data new.data 0 s.data)

/-- The function `PercentEncode`. -/
def PercentEncode (str : String) : String :=
  let encoded := QueryEscape str
  let encoded := stringsReplaceAll encoded "+" "%20"
  let encoded := stringsReplaceAll encoded "*" "%2A"
  let encoded := stringsReplaceAll encoded "%7E" "~"
  encoded

/-- The unreserved characters: `A-Z`, `a-z`, `0-9`, `-`, `_`, `.`, `~`. -/
def isUnreserved (c : Char) : Bool :=
  shouldEscape c.toNat = false

/-- The upper-case hexadecimal digits `0-9`, `A-F`. -/
def isUpperHex (c : Char) : Bool :=
  (48 ≤ c.toNat && c.toNat ≤ 57) || (65 ≤ c.toNat && c.toNat ≤ 70)

/-- The percent-encoded form of one byte: the byte itself when it is an
unreserved character, `%XX` otherwise. -/
def percentByte (c : Nat) : List Char :=
  if shouldEscape c then ['%', upperHexDigit (c / 16), upperHexDigit (c % 16)]
  else [Char.ofNat c]

/-- The percent-encoded form of a list of bytes. -/
def percentBytes : List Nat → List Char
  | [] => []
  | c :: rest => percentByte c ++ percentBytes rest

/-- A string made only of unreserved characters and of `%XX` triplets with
upper-case hexadecimal digits. -/
def percentEncoded : List Char → Bool
  | [] => true
  | c :: rest =>
    if c = '%' then
      match rest with
      | a :: b :: rest' => isUpperHex a && isUpperHex b && percentEncoded rest'
      | _ => false
    else isUnreserved c && percentEncoded rest

/-! ## `pkg/providers/aliyun/aliyun.go`: signing and the response -/

/-- The struct `AliyunSMS`. -/
structure AliyunSMS where
  accessKeyId : String
  accessKeySecret : String
  endpoint : String
  version : String
  action : String
deriving DecidableEq, Repr

/-- The constructor `NewAliyunSMS`. -/
def NewAliyunSMS (accessKeyId accessKeySecret : String) : AliyunSMS :=
  { accessKeyId := accessKeyId, accessKeySecret := accessKeySecret,
    endpoint := "dysmsapi.aliyuncs.com", version := "2017-05-25", action := "SendSms" }

/-- The library functions the signing steps of `Send` call: `strings.ToLower`,
`strings.TrimSpace`, `sha256.Sum256` and HMAC-SHA256 (key first). -/
structure StdLib where
  toLower : String → String
  trimSpace : String → String
  sum256 : String → Digest
  hmacSum : String → String → Digest

/-- The values `Send` computes in its steps 4 to 9. -/
structure Signed where
  bodyHash : String
  canonicalHeaders : String
  signedHeaders : String
  canonicalRequest : String
  stringToSign : String
  signature : String
  authorization : String
deriving DecidableEq, Repr

/-- The anonymous struct `response` that `parseResponse` decodes into. -/
structure ResponseFields where
  Code : String
  Message : String
  RequestId : String
  BizId : String
deriving DecidableEq, Repr

namespace AliyunSMS

/-- The method `encodeForm`, on the entries of the map in the order `range` yields them. -/
def encodeForm (m : GoMap String) : String :=
  stringsJoin (m.map fun e => QueryEscape e.1 ++ "=" ++ QueryEscape e.2) "&"

/-- The method `hmacSha256Hex`. -/
def hmacSha256Hex (hmacSum : String → String → Digest) (secret msg : String) : String :=
  String.mk (hexEncode (hmacSum secret msg).bytes)

/-- The map `form` of `Send`, step 2, for the template parameter string of step 1. -/
def sendForm (templateParam : String) (req : SendRequest) : GoMap String :=
  [("PhoneNumbers", req.PhoneNumbers), ("SignName", req.SignName),
   ("TemplateCode", req.TemplateCode), ("TemplateParam", templateParam)]

/-- The map `headers` of `Send`, step 5. -/
def sendHeaders (a : AliyunSMS) (bodyHash date nonce : String) : GoMap String :=
  [("host", a.endpoint), ("x-acs-action", a.action), ("x-acs-content-sha256", bodyHash),
   ("x-acs-date", date), ("x-acs-signature-nonce", nonce), ("x-acs-version", a.version)]

/-- The canonical request of `Send`, step 6:
`fmt.Sprintf("POST\n/\n\n%s\n%s\n%s", canonicalHeaders, signedHeaders, bodyHash)`. -/
def canonicalRequest (canonicalHeaders signedHeaders bodyHash : String) : String :=
  "POST\n/\n\n" ++ canonicalHeaders ++ "\n" ++ signedHeaders ++ "\n" ++ bodyHash

/-- Steps 4 to 9 of `Send` for a body, with `headers` the entries of the
header map in the order `buildCanonicalHeaders` ranges over them. -/
def signWith (lib : StdLib) (a : AliyunSMS) (body : String) (headers : GoMap String) : Signed :=
  let bodyHash := SHA256Hash lib.sum256 body
  let canonicalHeaders := (buildCanonicalHeaders lib.toLower lib.trimSpace headers).1
  let signedHeaders := (buildCanonicalHeaders lib.toLower lib.trimSpace headers).2
  let canonicalRequest := canonicalRequest canonicalHeaders signedHeaders bodyHash
  let stringToSign := "ACS3-HMAC-SHA256\n" ++ SHA256Hash lib.sum256 canonicalRequest
  let signature := hmacSha256Hex lib.hmacSum a.accessKeySecret stringToSign
  let authorization :=
    "ACS3-HMAC-SHA256 Credential=" ++ a.accessKeyId ++ ",SignedHeaders=" ++ signedHeaders
      ++ ",Signature=" ++ signature
  { bodyHash := bodyHash, canonicalHeaders := canonicalHeaders, signedHeaders := signedHeaders,
    canonicalRequest := canonicalRequest, stringToSign := stringToSign,
    signature := signature, authorization := authorization }

/-- Steps 4 to 9 of `Send` for a body, a timestamp and a nonce. -/
def sign (lib : StdLib) (a : AliyunSMS) (body date nonce : String) : Signed :=
  signWith lib a body (a.sendHeaders (SHA256Hash lib.sum256 body) date nonce)

/-- The method `parseResponse`: the pair `(*sms.SendResponse, error)`. The argument
`unmarshal` is `json.Unmarshal(body, &response)`: the error it returns and
the contents of `response` afterwards, from its contents before. -/
def parseResponse (unmarshal : String → ResponseFields → Option String × ResponseFields)
    (body : String) : Option SendResponse × Option String :=
  let zero : ResponseFields := { Code := "", Message := "", RequestId := "", BizId := "" }
  match (unmarshal body zero).1 with
  | some err => (none, some err)
  | none =>
    (some { Success := decide ((unmarshal body zero).2.Code = "OK"),
            Message := (unmarshal body zero).2.Message,
            Code := (unmarshal body zero).2.Code,
            RequestId := (unmarshal body zero).2.RequestId,
            BizId := (unmarshal body zero).2.BizId,
            Data := some [] },
     none)

end AliyunSMS

/-- A digest of 32 zero bytes. -/
def zeroDigest : Digest :=
  { bytes := List.replicate 32 0, size := List.length_replicate 32 0 }

/-- Library functions for evaluation: the ASCII string functions and digest
functions that return the zero digest. -/
def exampleLib : StdLib :=
  { toLower := asciiToLower, trimSpace := asciiTrimSpace,
    sum256 := fun _ => zeroDigest, hmacSum := fun _ _ => zeroDigest }

/-- A decoder for evaluation that knows the two response bodies of the
end-to-end scenarios and rejects every other body. -/
def exampleUnmarshal (body : String) (response : ResponseFields) :
    Option String × ResponseFields :=
  if body = "\x7b\"Code\":\"OK\",\"Message\":\"OK\",\"RequestId\":\"r1\",\"BizId\":\"b1\"\x7d" then
    (none, { Code := "OK", Message := "OK", RequestId := "r1", BizId := "b1" })
  else if body = "\x7b\"Code\":\"isv.BUSINESS_LIMIT_CONTROL\",\"Message\":\"triggered\"\x7d" then
    (none, { response with Code := "isv.BUSINESS_LIMIT_CONTROL", Message := "triggered" })
  else
    (some "invalid character", { response with Code := "partial" })

/-! ## Lemmas on Go maps -/

namespace GoMap

variable {V : Type}

theorem get_delete_self (m : GoMap V) (k : String) : get (delete m k) k = none := by
  induction m with
  | nil => rfl
  | cons e rest ih =>
    obtain ⟨k', v⟩ := e
    by_cases h : k' = k
    · simpa [delete, List.filter_cons, h] using ih
    · simpa [delete, List.filter_cons, h, get] using ih

theorem get_delete_of_ne (m : GoMap V) {k other : String} (h : other ≠ k) :
    get (delete m k) other = get m other := by
  induction m with
  | nil => rfl
  | cons e rest ih =>
    obtain ⟨k', v⟩ := e
    by_cases hk : k' = k
    · subst hk
      have hne : ¬ k' = other := fun h' => h h'.symm
      simpa [delete, List.filter_cons, get, hne] using ih
    · by_cases ho : k' = other
      · subst ho
        simp [delete, List.filter_cons, hk, get]
      · simpa [delete, List.filter_cons, hk, get, ho] using ih

theorem get_set_self (m : GoMap V) (k : String) (v : V) : get (set m k v) k = some v := by
  simp [set, get]

theorem get_set_of_ne (m : GoMap V) {k other : String} (v : V) (h : other ≠ k) :
    get (set m k v) other = get m other := by
  have hne : ¬ k = other := fun h' => h h'.symm
  simp [set, get, hne, get_delete_of_ne m h]

theorem delete_delete (m : GoMap V) (k : String) : delete (delete m k) k = delete m k := by
  simp [delete, List.filter_filter]

theorem delete_set (m : GoMap V) (k : String) (v : V) : delete (set m k v) k = delete m k := by
  simp [set, delete, List.filter_cons, List.filter_filter]

theorem set_set (m : GoMap V) (k : String) (v w : V) : set (set m k v) k w = set m k w := by
  show (k, w) :: delete (set m k v) k = (k, w) :: delete m k
  rw [delete_set]

theorem get_eq_none_iff (m : GoMap V) (k : String) : get m k = none ↔ k ∉ keys m := by
  induction m with
  | nil => simp [get, keys]
  | cons e rest ih =>
    obtain ⟨k', v⟩ := e
    by_cases h : k' = k
    · simp [get, keys, h]
    · have h2 : ¬ k = k' := fun h' => h h'.symm
      simpa [get, keys, h, h2] using ih

theorem get_eq_some_iff (m : GoMap V) (hnd : (keys m).Nodup) (k : String) (v : V) :
    get m k = some v ↔ (k, v) ∈ m := by
  induction m with
  | nil => simp [get]
  | cons e rest ih =>
    obtain ⟨k', v'⟩ := e
    have hnd2 : k' ∉ keys rest ∧ (keys rest).Nodup := by simpa [keys] using hnd
    by_cases h : k' = k
    · subst h
      have hnot : ∀ w, (k', w) ∉ rest := fun w hw =>
        hnd2.1 (List.mem_map.mpr ⟨(k', w), hw, rfl⟩)
      constructor
      · intro hg
        simp [get] at hg
        simp [hg]
      · intro hm
        rcases List.mem_cons.mp hm with h1 | h1
        · simp only [Prod.mk.injEq] at h1
          simp [get, h1.2]
        · exact absurd h1 (hnot v)
    · have h2 : ¬ k = k' := fun h' => h h'.symm
      simp [get, h, h2, ih hnd2.2]

theorem get_perm {m m' : GoMap V} (hnd : (keys m).Nodup) (hp : m'.Perm m) (k : String) :
    get m' k = get m k := by
  have hnd' : (keys m').Nodup := ((hp.map Prod.fst).nodup_iff).mpr hnd
  apply Option.ext
  intro v
  simp only [Option.mem_def]
  rw [get_eq_some_iff m' hnd', get_eq_some_iff m hnd]
  exact hp.mem_iff

end GoMap

open SMSManager

/-! ## Where the default stays present

`SetDefault` and `RemoveProvider` keep the default among the values of the
mapping, and so does `Register` unless it replaces the entry that holds the
default by another provider. -/

theorem DefaultPresent_SetDefault (m : SMSManager) (name : String) (h : DefaultPresent m) :
    DefaultPresent (m.SetDefault name).2 := by
  unfold SetDefault
  cases hg : m.providers.get name with
  | none => exact h
  | some sms => exact fun _ => ⟨name, hg⟩

theorem ifaceEq_eq_some (ti : TypeInfo) (a b : SMS) (c : Bool) (h : ifaceEq ti a b = some c) :
    c = decide (a = b) := by
  cases a with
  | none =>
    cases b with
    | none => simp [ifaceEq] at h; simp [← h]
    | some q => simp [ifaceEq] at h; simp [← h]
  | some p =>
    cases b with
    | none => simp [ifaceEq] at h; simp [← h]
    | some q =>
      simp only [ifaceEq] at h
      by_cases ht : ti.typeOf p = ti.typeOf q
      · have hnn : ¬ (ti.typeOf p ≠ ti.typeOf q) := fun hne => hne ht
        rw [if_neg hnn] at h
        by_cases hc : ti.comparable (ti.typeOf p) = true
        · rw [if_pos hc] at h
          simp only [Option.some.injEq] at h
          rw [← h]
          simp
        · rw [if_neg hc] at h
          exact absurd h (by simp)
      · have hpq : p ≠ q := fun hpq => ht (by rw [hpq])
        rw [if_pos ht] at h
        simp only [Option.some.injEq] at h
        rw [← h]
        simp [hpq]

theorem ifaceEq_self (ti : TypeInfo) (a : SMS)
    (hcmp : ∀ p, a = some p → ti.comparable (ti.typeOf p) = true) :
    ifaceEq ti a a = some true := by
  cases a with
  | none => rfl
  | some p => simp [ifaceEq, hcmp p rfl]

theorem RemoveProvider_of_absent (ti : TypeInfo) (m : SMSManager) (name : String)
    (hg : m.providers.get name = none) :
    m.RemoveProvider ti name = (ErrorResult.returned (some (errNotFound name)), m) := by
  simp only [RemoveProvider, hg]

theorem RemoveProvider_of_panic (ti : TypeInfo) (m : SMSManager) (name : String) (sms : SMS)
    (hg : m.providers.get name = some sms) (hc : ifaceEq ti sms m.defaultSMS = none) :
    m.RemoveProvider ti name = (ErrorResult.panicked, m) := by
  simp only [RemoveProvider, hg, GoMap.index, Option.getD_some, hc]

theorem RemoveProvider_of_compared (ti : TypeInfo) (m : SMSManager) (name : String) (sms : SMS)
    (c : Bool) (hg : m.providers.get name = some sms)
    (hc : ifaceEq ti sms m.defaultSMS = some c) :
    m.RemoveProvider ti name
      = (ErrorResult.returned none,
         { providers := m.providers.delete name,
           defaultSMS := if sms = m.defaultSMS then none else m.defaultSMS }) := by
  have hcd := ifaceEq_eq_some ti sms m.defaultSMS c hc
  simp only [RemoveProvider, hg, GoMap.index, Option.getD_some, hc]
  by_cases hd : sms = m.defaultSMS
  · simp [hcd, hd]
  · simp [hcd, hd]

theorem DefaultPresent_RemoveProvider (ti : TypeInfo) (m : SMSManager) (name : String)
    (h : DefaultPresent m) : DefaultPresent (m.RemoveProvider ti name).2 := by
  cases hg : m.providers.get name with
  | none => rw [RemoveProvider_of_absent ti m name hg]; exact h
  | some sms =>
    cases hc : ifaceEq ti sms m.defaultSMS with
    | none => rw [RemoveProvider_of_panic ti m name sms hg hc]; exact h
    | some c =>
      rw [RemoveProvider_of_compared ti m name sms c hg hc]
      by_cases hd : sms = m.defaultSMS
      · intro hne
        simp [hd] at hne
      · intro hne
        simp only [hd, if_false] at hne ⊢
        obtain ⟨n, hn⟩ := h hne
        have hnn : n ≠ name := fun he => hd (by rw [he, hg] at hn; exact Option.some.inj hn)
        exact ⟨n, by rw [GoMap.get_delete_of_ne _ hnn]; exact hn⟩

theorem DefaultPresent_Register (m : SMSManager) (name : String) (sms : SMS)
    (h : DefaultPresent m)
    (hfresh : m.providers.get name ≠ some m.defaultSMS ∨ sms = m.defaultSMS) :
    DefaultPresent (m.Register name sms) := by
  intro hne
  rcases hfresh with hf | hf
  · obtain ⟨n, hn⟩ := h hne
    have hnn : n ≠ name := fun he => hf (he ▸ hn)
    exact ⟨n, by simpa [Register, GoMap.get_set_of_ne _ _ hnn] using hn⟩
  · exact ⟨name, by simp [Register, GoMap.get_set_self, hf]⟩

/-! ## The registry -/

/-- C1 (fails on the code): after `Register("a", p1)`, `SetDefault("a")` and
`Register("a", p2)` with two different providers, the default is still `p1`
while the mapping holds only `p2`: the default is set and is no value of the
providers mapping. -/
theorem Register_overwrite_stale_default (ti : TypeInfo) :
    (runOps ti
        [Op.register "a" (some 1), Op.setDefault "a", Op.register "a" (some 2)]).defaultSMS
        = some 1 ∧
    (runOps ti
        [Op.register "a" (some 1), Op.setDefault "a", Op.register "a" (some 2)]).providers
        = [("a", some 2)] ∧
    ¬ DefaultPresent
        (runOps ti [Op.register "a" (some 1), Op.setDefault "a", Op.register "a" (some 2)]) := by
  have hm : runOps ti [Op.register "a" (some 1), Op.setDefault "a", Op.register "a" (some 2)]
      = { providers := [("a", some 2)], defaultSMS := some 1 } := by rfl
  rw [hm]
  refine ⟨rfl, rfl, ?_⟩
  intro h
  obtain ⟨name, hn⟩ := h (by decide)
  by_cases hk : "a" = name
  · simp [GoMap.get, hk] at hn
  · simp [GoMap.get, hk] at hn

/-- When `name` is registered, the provider stored under it is the current
default and its dynamic type is comparable, `RemoveProvider(name)` returns no
error and leaves the default unset, and a following `Send` returns a nil
response and the error "no default SMS provider configured" and invokes no
provider. -/
theorem RemoveProvider_default_then_Send_comparable (ti : TypeInfo) (impl : Impl)
    (m : SMSManager) (name : String) (sms : SMS) (ctx : Context) (req : SendRequest)
    (hreg : m.providers.get name = some sms) (hdef : m.defaultSMS = sms)
    (hcmp : ∀ p, sms = some p → ti.comparable (ti.typeOf p) = true) :
    (m.RemoveProvider ti name).1 = ErrorResult.returned none ∧
    (m.RemoveProvider ti name).2.defaultSMS = none ∧
    (Send impl (m.RemoveProvider ti name).2 ctx req).1
      = CallResult.returned none (some "no default SMS provider configured") ∧
    (Send impl (m.RemoveProvider ti name).2 ctx req).2.1 = [] := by
  have hc : ifaceEq ti sms m.defaultSMS = some true := by
    rw [hdef]; exact ifaceEq_self ti sms hcmp
  rw [RemoveProvider_of_compared ti m name sms true hreg hc]
  have h2 : (if sms = m.defaultSMS then (none : SMS) else m.defaultSMS) = none := by
    simp [hdef]
  refine ⟨rfl, h2, ?_, ?_⟩ <;> simp [Send, h2, errNoDefault]

/-- The registry whose only provider, the pointer "aliyun", is its default:
removing it clears the default. -/
theorem RemoveProvider_default_then_Send_comparable_witness :
    exampleManager.providers.get "aliyun" = some (some 7) ∧
    exampleManager.defaultSMS = some 7 ∧
    (exampleManager.RemoveProvider pointerTypes "aliyun").1 = ErrorResult.returned none ∧
    (exampleManager.RemoveProvider pointerTypes "aliyun").2.defaultSMS = none ∧
    (Send exampleImpl (exampleManager.RemoveProvider pointerTypes "aliyun").2 0
        exampleRequest).1
      = CallResult.returned none (some "no default SMS provider configured") ∧
    (Send exampleImpl (exampleManager.RemoveProvider pointerTypes "aliyun").2 0
        exampleRequest).2.1 = [] :=
  ⟨by decide, by decide,
   RemoveProvider_default_then_Send_comparable pointerTypes exampleImpl exampleManager "aliyun"
     (some 7) 0 exampleRequest (by decide) (by decide) (fun _ _ => rfl)⟩

/-- C5 (fails on the code): the registry holds the provider 7 as "aliyun" and
as its default, and the dynamic type of 7 is a slice type. Then
`RemoveProvider("aliyun")` panics in the comparison
`m.providers[name] == m.defaultSMS` and changes nothing: the name is still
registered, the default is still 7, and a following `Send` invokes the `Send`
of provider 7 instead of returning the error "no default SMS provider
configured". -/
theorem RemoveProvider_default_panics :
    exampleManager.providers.get "aliyun" = some (some 7) ∧
    exampleManager.defaultSMS = some 7 ∧
    exampleManager.RemoveProvider sliceTypes "aliyun"
      = (ErrorResult.panicked, exampleManager) ∧
    (Send exampleImpl (exampleManager.RemoveProvider sliceTypes "aliyun").2 0 exampleRequest).1
      = exampleImpl 7 0 exampleRequest ∧
    (Send exampleImpl (exampleManager.RemoveProvider sliceTypes "aliyun").2 0
        exampleRequest).2.1 = [(7, 0, exampleRequest)] ∧
    (Send exampleImpl (exampleManager.RemoveProvider sliceTypes "aliyun").2 0 exampleRequest).1
      ≠ CallResult.returned none (some "no default SMS provider configured") := by
  have hr : exampleManager.RemoveProvider sliceTypes "aliyun"
      = (ErrorResult.panicked, exampleManager) := by decide
  rw [hr]
  exact ⟨by decide, by decide, rfl, rfl, rfl, by decide⟩

/-- C6: `SetDefault(name)` on a name that is not registered returns the error
"provider name not found" and leaves the state (default and mapping) as it
was; on a registered name it returns no error, the default becomes the
provider stored under `name`, and the mapping is as it was. -/
theorem SetDefault_spec (m : SMSManager) (name : String) :
    (m.providers.get name = none →
      (m.SetDefault name).1 = some ("provider " ++ name ++ " not found") ∧
      (m.SetDefault name).2 = m) ∧
    (∀ sms, m.providers.get name = some sms →
      (m.SetDefault name).1 = none ∧
      (m.SetDefault name).2.defaultSMS = sms ∧
      (m.SetDefault name).2.providers = m.providers) := by
  constructor
  · intro h
    simp [SetDefault, h, errNotFound]
  · intro sms h
    simp [SetDefault, h]

/-- Witness for C6: an unregistered and a registered name on the example registry. -/
theorem SetDefault_spec_witness :
    (exampleManager.providers.get "tencent" = none ∧
      (exampleManager.SetDefault "tencent").1 = some "provider tencent not found" ∧
      (exampleManager.SetDefault "tencent").2 = exampleManager) ∧
    (exampleManager.providers.get "aliyun" = some (some 7) ∧
      (exampleManager.SetDefault "aliyun").1 = none ∧
      (exampleManager.SetDefault "aliyun").2.defaultSMS = some 7 ∧
      (exampleManager.SetDefault "aliyun").2.providers = exampleManager.providers) :=
  ⟨⟨by decide, (SetDefault_spec exampleManager "tencent").1 (by decide)⟩,
   ⟨by decide, (SetDefault_spec exampleManager "aliyun").2 (some 7) (by decide)⟩⟩

/-- C7: `Send` returns a nil response with the error
"no default SMS provider configured" and invokes no provider exactly when no
default is set; when the default is the provider `p`, the result is the
result of `p.Send(ctx, req)`, which is the one invocation made; the registry
state is unchanged either way. -/
theorem Send_spec (impl : Impl) (m : SMSManager) (ctx : Context) (req : SendRequest) :
    (((Send impl m ctx req).1 = CallResult.returned none (some "no default SMS provider configured")
        ∧ (Send impl m ctx req).2.1 = []) ↔ m.defaultSMS = none) ∧
    (∀ p, m.defaultSMS = some p →
      (Send impl m ctx req).1 = impl p ctx req ∧ (Send impl m ctx req).2.1 = [(p, ctx, req)]) ∧
    (Send impl m ctx req).2.2 = m := by
  refine ⟨?_, ?_, ?_⟩
  · constructor
    · rintro ⟨-, h2⟩
      cases hd : m.defaultSMS with
      | none => rfl
      | some p => simp [Send, hd, callSend] at h2
    · intro h
      simp [Send, h, errNoDefault]
  · intro p hp
    simp [Send, hp, callSend]
  · unfold Send
    split <;> rfl

/-- Witness for C7: the example registry, whose default is provider 7. -/
theorem Send_spec_witness :
    exampleManager.defaultSMS = some 7 ∧
    (Send exampleImpl exampleManager 0 exampleRequest).1 = exampleImpl 7 0 exampleRequest ∧
    (Send exampleImpl exampleManager 0 exampleRequest).2.1 = [(7, 0, exampleRequest)] :=
  ⟨rfl, (Send_spec exampleImpl exampleManager 0 exampleRequest).2.1 7 rfl⟩

/-- C8: `SendWithProvider(ctx, name, req)` returns a nil response with the
error "provider name not found" and invokes no provider exactly when `name`
is absent from the mapping; otherwise its result and its invocations are
those of `Send` called on the value stored under `name`; neither depends on
the default, and the registry state is unchanged. -/
theorem SendWithProvider_spec (impl : Impl) (m : SMSManager) (ctx : Context) (name : String)
    (req : SendRequest) :
    (((SendWithProvider impl m ctx name req).1
          = CallResult.returned none (some ("provider " ++ name ++ " not found"))
        ∧ (SendWithProvider impl m ctx name req).2.1 = []) ↔ m.providers.get name = none) ∧
    (∀ sms, m.providers.get name = some sms →
      (SendWithProvider impl m ctx name req).1 = (callSend impl sms ctx req).1 ∧
      (SendWithProvider impl m ctx name req).2.1 = (callSend impl sms ctx req).2) ∧
    (∀ d : SMS,
      (SendWithProvider impl { m with defaultSMS := d } ctx name req).1
        = (SendWithProvider impl m ctx name req).1 ∧
      (SendWithProvider impl { m with defaultSMS := d } ctx name req).2.1
        = (SendWithProvider impl m ctx name req).2.1) ∧
    (SendWithProvider impl m ctx name req).2.2 = m := by
  refine ⟨?_, ?_, ?_, ?_⟩
  · constructor
    · rintro ⟨h1, h2⟩
      cases hg : m.providers.get name with
      | none => rfl
      | some sms =>
        cases sms with
        | none => simp [SendWithProvider, hg, callSend] at h1
        | some p => simp [SendWithProvider, hg, callSend] at h2
    · intro h
      simp [SendWithProvider, h, errNotFound]
  · intro sms h
    simp [SendWithProvider, h]
  · intro d
    cases hg : m.providers.get name <;> simp [SendWithProvider, hg]
  · unfold SendWithProvider
    split <;> rfl

/-- Witness for C8: the registered name "aliyun" on the example registry. -/
theorem SendWithProvider_spec_witness :
    exampleManager.providers.get "aliyun" = some (some 7) ∧
    (SendWithProvider exampleImpl exampleManager 0 "aliyun" exampleRequest).1
      = (callSend exampleImpl (some 7) 0 exampleRequest).1 ∧
    (SendWithProvider exampleImpl exampleManager 0 "aliyun" exampleRequest).2.1
      = (callSend exampleImpl (some 7) 0 exampleRequest).2 :=
  ⟨by decide,
   (SendWithProvider_spec exampleImpl exampleManager 0 "aliyun" exampleRequest).2.1 (some 7)
     (by decide)⟩

/-- C9: `Register(name, p)` is total; after it `GetProvider(name)` returns
`p` and no error and `GetProvider(other)` returns what it returned before for
every other name; registering `(name, p)` twice gives the state of
registering it once; registering `(name, p1)` and then `(name, p2)` gives the
mapping of registering `(name, p2)` alone; `GetProvider` returns an error
exactly for the names absent from the mapping, and that error is
"provider name not found" with a nil provider. -/
theorem Register_GetProvider (m : SMSManager) (name : String) (p : SMS) :
    ((m.Register name p).GetProvider name).1 = (p, none) ∧
    (∀ other, other ≠ name →
      ((m.Register name p).GetProvider other).1 = (m.GetProvider other).1) ∧
    (m.Register name p).Register name p = m.Register name p ∧
    (∀ p1 p2, ((m.Register name p1).Register name p2).providers
      = (m.Register name p2).providers) ∧
    (∀ n, (m.GetProvider n).1.2 ≠ none ↔ m.providers.get n = none) ∧
    (∀ n, m.providers.get n = none →
      (m.GetProvider n).1 = (none, some ("provider " ++ n ++ " not found"))) := by
  refine ⟨?_, ?_, ?_, ?_, ?_, ?_⟩
  · simp [GetProvider, Register, GoMap.get_set_self]
  · intro other h
    have hg : (m.Register name p).providers.get other = m.providers.get other :=
      GoMap.get_set_of_ne m.providers p h
    unfold GetProvider
    rw [hg]
    cases m.providers.get other <;> rfl
  · simp [Register, GoMap.set_set]
  · intro p1 p2
    simp [Register, GoMap.set_set]
  · intro n
    cases hg : m.providers.get n <;> simp [GetProvider, hg]
  · intro n hg
    simp [GetProvider, hg, errNotFound]

/-- Witness for C9: overwriting "aliyun" leaves the lookup of "tencent" as it was. -/
theorem Register_GetProvider_witness :
    "tencent" ≠ "aliyun" ∧
    ((exampleManager.Register "aliyun" (some 3)).GetProvider "tencent").1
      = (exampleManager.GetProvider "tencent").1 :=
  ⟨by decide, (Register_GetProvider exampleManager "aliyun" (some 3)).2.1 "tencent" (by decide)⟩

/-- C10: `RemoveProvider(name)` returns an error exactly when `name` is
absent from the mapping; the error is "provider name not found" and the state
(mapping and default) is unchanged. When it succeeds (returns nil), `name`
was registered and is absent afterwards, so that `GetProvider(name)` fails,
and every other name maps to what it mapped to before. It succeeds exactly
when `name` is registered and the comparison of the stored provider with the
default does not panic; when that comparison panics, the state is unchanged. -/
theorem RemoveProvider_spec (ti : TypeInfo) (m : SMSManager) (name : String) :
    ((∃ err, (m.RemoveProvider ti name).1 = ErrorResult.returned (some err))
      ↔ m.providers.get name = none) ∧
    (m.providers.get name = none →
      (m.RemoveProvider ti name).1
        = ErrorResult.returned (some ("provider " ++ name ++ " not found")) ∧
      (m.RemoveProvider ti name).2 = m) ∧
    ((m.RemoveProvider ti name).1 = ErrorResult.returned none →
      m.providers.get name ≠ none ∧
      (m.RemoveProvider ti name).2.providers.get name = none ∧
      ((m.RemoveProvider ti name).2.GetProvider name).1
        = (none, some ("provider " ++ name ++ " not found")) ∧
      (∀ other, other ≠ name →
        (m.RemoveProvider ti name).2.providers.get other = m.providers.get other)) ∧
    ((m.RemoveProvider ti name).1 = ErrorResult.returned none ↔
      m.providers.get name ≠ none ∧
        ifaceEq ti (m.providers.index none name) m.defaultSMS ≠ none) ∧
    ((m.RemoveProvider ti name).1 = ErrorResult.panicked → (m.RemoveProvider ti name).2 = m) := by
  cases hg : m.providers.get name with
  | none =>
    rw [RemoveProvider_of_absent ti m name hg]
    simp [errNotFound]
  | some sms =>
    have hidx : m.providers.index none name = sms := by simp [GoMap.index, hg]
    rw [hidx]
    cases hc : ifaceEq ti sms m.defaultSMS with
    | none =>
      rw [RemoveProvider_of_panic ti m name sms hg hc]
      simp
    | some c =>
      rw [RemoveProvider_of_compared ti m name sms c hg hc]
      refine ⟨by simp, by simp, fun _ => ⟨by simp, ?_, ?_, ?_⟩, by simp, by simp⟩
      · exact GoMap.get_delete_self _ _
      · simp [GetProvider, GoMap.get_delete_self, errNotFound]
      · intro other ho
        exact GoMap.get_delete_of_ne _ ho

/-- Witness for C10: removing the registered pointer provider "aliyun" from
the example registry succeeds. -/
theorem RemoveProvider_spec_witness :
    (exampleManager.RemoveProvider pointerTypes "aliyun").1 = ErrorResult.returned none ∧
    exampleManager.providers.get "aliyun" ≠ none ∧
    (exampleManager.RemoveProvider pointerTypes "aliyun").2.providers.get "aliyun" = none ∧
    ((exampleManager.RemoveProvider pointerTypes "aliyun").2.GetProvider "aliyun").1
      = (none, some ("provider " ++ "aliyun" ++ " not found")) :=
  ⟨by decide,
   ((RemoveProvider_spec pointerTypes exampleManager "aliyun").2.2.1 (by decide)).1,
   ((RemoveProvider_spec pointerTypes exampleManager "aliyun").2.2.1 (by decide)).2.1,
   ((RemoveProvider_spec pointerTypes exampleManager "aliyun").2.2.1 (by decide)).2.2.1⟩

/-! ## Sorting strings -/

theorem ltChars_asymm : ∀ (a b : List Char), ltChars a b = true → ltChars b a = false
  | [], [], _ => rfl
  | [], _ :: _, _ => rfl
  | _ :: _, [], h => by simp [ltChars] at h
  | x :: xs, y :: ys, h => by
    simp only [ltChars] at h ⊢
    by_cases h1 : x.toNat < y.toNat
    · have h2 : ¬ y.toNat < x.toNat := by omega
      simp [h2, h1]
    · by_cases h2 : y.toNat < x.toNat
      · simp [h1, h2] at h
      · simp only [h1, h2, if_false] at h ⊢
        exact ltChars_asymm xs ys h

theorem ltChars_irrefl (a : List Char) : ltChars a a = false := by
  cases h : ltChars a a with
  | false => rfl
  | true => rw [ltChars_asymm a a h] at h; exact h.symm

theorem ltChars_negtrans : ∀ (a b c : List Char), ltChars a c = true →
    ltChars a b = true ∨ ltChars b c = true
  | [], [], [], h => by simp [ltChars] at h
  | [], [], _ :: _, _ => Or.inr rfl
  | [], _ :: _, _, _ => Or.inl rfl
  | _ :: _, _, [], h => by simp [ltChars] at h
  | _ :: _, [], _ :: _, _ => Or.inr rfl
  | x :: xs, y :: ys, z :: zs, h => by
    simp only [ltChars] at h ⊢
    by_cases hxy : x.toNat < y.toNat
    · simp [hxy]
    · by_cases hyz : y.toNat < z.toNat
      · simp [hyz]
      · by_cases hyx : y.toNat < x.toNat
        · have hzx : z.toNat < x.toNat := by omega
          have hxz : ¬ x.toNat < z.toNat := by omega
          simp [hzx, hxz] at h
        · by_cases hzy : z.toNat < y.toNat
          · have hzx : z.toNat < x.toNat := by omega
            have hxz : ¬ x.toNat < z.toNat := by omega
            simp [hzx, hxz] at h
          · have hxz : ¬ x.toNat < z.toNat := by omega
            have hzx : ¬ z.toNat < x.toNat := by omega
            simp only [hxy, hyx, hyz, hzy, hxz, hzx, if_false] at h ⊢
            exact ltChars_negtrans xs ys zs h

theorem ltChars_connex : ∀ (a b : List Char), ltChars a b = false → ltChars b a = false → a = b
  | [], [], _, _ => rfl
  | [], _ :: _, h, _ => by simp [ltChars] at h
  | _ :: _, [], _, h => by simp [ltChars] at h
  | x :: xs, y :: ys, h1, h2 => by
    simp only [ltChars] at h1 h2
    by_cases hxy : x.toNat < y.toNat
    · simp [hxy] at h1
    · by_cases hyx : y.toNat < x.toNat
      · simp [hyx] at h2
      · simp only [hxy, hyx, if_false] at h1 h2
        have hn : x.toNat = y.toNat := by omega
        have hc : x = y := by rw [← Char.ofNat_toNat x, hn, Char.ofNat_toNat]
        rw [hc, ltChars_connex xs ys h1 h2]

theorem strLe_iff (a b : String) : strLe a b = true ↔ ltChars b.data a.data = false := by
  simp [strLe]

theorem strLe_total (a b : String) : strLe a b = true ∨ strLe b a = true := by
  rw [strLe_iff, strLe_iff]
  cases h : ltChars b.data a.data with
  | false => exact Or.inl rfl
  | true => exact Or.inr (ltChars_asymm _ _ h)

theorem strLe_trans (a b c : String) (hab : strLe a b = true) (hbc : strLe b c = true) :
    strLe a c = true := by
  rw [strLe_iff] at *
  cases h : ltChars c.data a.data with
  | false => rfl
  | true =>
    rcases ltChars_negtrans _ b.data _ h with h1 | h1
    · rw [hbc] at h1; exact absurd h1 (by decide)
    · rw [hab] at h1; exact absurd h1 (by decide)

theorem strLe_antisymm (a b : String) (hab : strLe a b = true) (hba : strLe b a = true) :
    a = b := by
  rw [strLe_iff] at *
  exact String.ext (ltChars_connex _ _ hba hab)

theorem sortStrings_perm (l : List String) : (sortStrings l).Perm l :=
  List.perm_insertionSort _ l

theorem sortStrings_sorted (l : List String) :
    (sortStrings l).Sorted (fun a b => strLe a b = true) :=
  @List.sorted_insertionSort _ (fun a b => strLe a b = true) _ ⟨strLe_total⟩ ⟨strLe_trans⟩ l

theorem sortStrings_eq_of_sorted {l l' : List String} (hp : l'.Perm l)
    (hs : l'.Sorted (fun a b => strLe a b = true)) : sortStrings l = l' :=
  @List.eq_of_perm_of_sorted _ (fun a b => strLe a b = true) ⟨strLe_antisymm⟩ _ _
    ((sortStrings_perm l).trans hp.symm) (sortStrings_sorted l) hs

theorem sortStrings_congr {l l' : List String} (hp : l.Perm l') :
    sortStrings l = sortStrings l' :=
  sortStrings_eq_of_sorted ((sortStrings_perm l').trans hp.symm) (sortStrings_sorted l')

/-! ## Joining strings -/

theorem stringsJoin_newline : ∀ (lines : List String), lines ≠ [] →
    stringsJoin lines "\n" ++ "\n" = concatAll (lines.map fun s => s ++ "\n")
  | [], h => absurd rfl h
  | [a], _ => by simp [stringsJoin, concatAll]
  | a :: b :: rest, _ => by
    have ih := stringsJoin_newline (b :: rest) (by simp)
    simp only [stringsJoin, List.map_cons, concatAll] at ih ⊢
    rw [String.append_assoc, String.append_assoc, ih]
    simp only [String.append_assoc]

theorem stringsJoin_length_ge : ∀ (a : String) (l : List String) (sep : String),
    a.length ≤ (stringsJoin (a :: l) sep).length
  | a, [], _ => by simp [stringsJoin]
  | a, b :: rest, sep => by
    simp only [stringsJoin, String.length_append]
    omega

/-! ## The Aliyun provider -/

theorem buildCanonicalHeaders_perm (toLower trimSpace : String → String)
    {headers other : GoMap String} (hnd : headers.keys.Nodup) (hp : other.Perm headers) :
    buildCanonicalHeaders toLower trimSpace other
      = buildCanonicalHeaders toLower trimSpace headers := by
  have hk : sortStrings (other.keys.map toLower) = sortStrings (headers.keys.map toLower) :=
    sortStrings_congr ((hp.map Prod.fst).map toLower)
  have hi : ∀ k, other.index "" k = headers.index "" k := fun k => by
    simp [GoMap.index, GoMap.get_perm hnd hp k]
  simp only [buildCanonicalHeaders, hk, hi]

theorem sortStrings_keys_eq (toLower : String → String) (headers : GoMap String)
    (hlow : ∀ k ∈ headers.keys, toLower k = k) :
    sortStrings (headers.keys.map toLower)
      = GoMap.keys (headers.insertionSort fun e₁ e₂ => strLe e₁.1 e₂.1 = true) := by
  have hid : headers.keys.map toLower = headers.keys := by
    conv_rhs => rw [← List.map_id headers.keys]
    exact List.map_congr_left fun k hk => by simpa using hlow k hk
  rw [hid]
  apply sortStrings_eq_of_sorted
  · exact (List.perm_insertionSort _ headers).map Prod.fst
  · have hs := @List.sorted_insertionSort (String × String)
      (fun e₁ e₂ => strLe e₁.1 e₂.1 = true) _
      ⟨fun a b => strLe_total a.1 b.1⟩ ⟨fun a b c => strLe_trans a.1 b.1 c.1⟩ headers
    exact List.pairwise_map.mpr hs

/-- C4 (as amended): for a header map with at least one entry whose names
are all lower-case, `buildCanonicalHeaders` returns the specified canonical
form: with the entries in strictly ascending order of their names, the
concatenation of `name:value\n` (value trimmed), which ends with a newline
after the last header, and the names joined by `;`. Every traversal order of
the map gives the same two strings. -/
theorem buildCanonicalHeaders_lower_case (toLower trimSpace : String → String)
    (headers : GoMap String) (hne : headers ≠ []) (hnd : headers.keys.Nodup)
    (hlow : ∀ k ∈ headers.keys, toLower k = k) :
    IsCanonicalForm trimSpace headers (buildCanonicalHeaders toLower trimSpace headers) ∧
    ∀ other : GoMap String, other.Perm headers →
      buildCanonicalHeaders toLower trimSpace other
        = buildCanonicalHeaders toLower trimSpace headers := by
  refine ⟨?_, fun other hp => buildCanonicalHeaders_perm toLower trimSpace hnd hp⟩
  obtain ⟨es, hdef⟩ : ∃ es : GoMap String,
      es = headers.insertionSort fun e₁ e₂ => strLe e₁.1 e₂.1 = true := ⟨_, rfl⟩
  have hperm : es.Perm headers := hdef ▸ List.perm_insertionSort _ headers
  have hkeys : sortStrings (headers.keys.map toLower) = es.keys :=
    hdef ▸ sortStrings_keys_eq toLower headers hlow
  have hsorted : es.keys.Pairwise (fun a b => strLe a b = true) := by
    rw [← hkeys]; exact sortStrings_sorted _
  have hnd' : es.keys.Nodup := ((hperm.map Prod.fst).nodup_iff).mpr hnd
  refine ⟨es, hperm, ?_, ?_⟩
  · refine List.Pairwise.imp₂ ?_ hsorted hnd'
    intro a b hle hab
    cases h : ltChars a.data b.data with
    | true => rfl
    | false =>
      exact absurd (String.ext (ltChars_connex _ _ h ((strLe_iff a b).mp hle))) hab
  · have hes : es ≠ [] := fun h => hne (by rw [h] at hperm; exact hperm.symm.eq_nil)
    have hlines : (es.keys.map fun k => k ++ ":" ++ trimSpace (headers.index "" k))
        = es.map fun e => e.1 ++ ":" ++ trimSpace e.2 := by
      rw [GoMap.keys, List.map_map]
      apply List.map_congr_left
      intro e he
      have hget : headers.get e.1 = some e.2 :=
        (GoMap.get_eq_some_iff headers hnd e.1 e.2).mpr (hperm.mem_iff.mp he)
      simp [GoMap.index, hget]
    simp only [buildCanonicalHeaders, hkeys, hlines]
    rw [stringsJoin_newline _ (by simpa using hes), List.map_map]
    rfl

/-- Witness for C4: the six lower-case headers that `Send` builds. -/
theorem buildCanonicalHeaders_lower_case_witness :
    exampleHeaders ≠ [] ∧ exampleHeaders.keys.Nodup ∧
    (∀ k ∈ exampleHeaders.keys, asciiToLower k = k) ∧
    IsCanonicalForm asciiTrimSpace exampleHeaders
      (buildCanonicalHeaders asciiToLower asciiTrimSpace exampleHeaders) :=
  ⟨by decide, by decide, by decide,
   (buildCanonicalHeaders_lower_case asciiToLower asciiTrimSpace exampleHeaders
     (by decide) (by decide) (by decide)).1⟩

/-- C4 (as stated, fails): on the map with no entries, whose names are
vacuously all lower-case, `buildCanonicalHeaders` returns the one-newline
string and not the empty concatenation, so the result is not the specified
canonical form. -/
theorem buildCanonicalHeaders_empty_not_canonical :
    buildCanonicalHeaders asciiToLower asciiTrimSpace [] = ("\n", "") ∧
    ¬ IsCanonicalForm asciiTrimSpace []
        (buildCanonicalHeaders asciiToLower asciiTrimSpace []) := by
  have h : buildCanonicalHeaders asciiToLower asciiTrimSpace [] = ("\n", "") := by decide
  refine ⟨h, ?_⟩
  rw [h]
  rintro ⟨es, hperm, -, heq⟩
  have hes : es = [] := hperm.eq_nil
  subst hes
  simp [concatAll] at heq

theorem jsonMarshal_length (encKey : String → String) (encVal : GoAny → Option String)
    (e : String × GoAny) (rest : GoMap GoAny) (out : String)
    (h : jsonMarshal encKey encVal (e :: rest) = some out) : 3 ≤ out.length := by
  have hlen : (sortStrings (GoMap.keys (e :: rest))).length = (rest.length + 1) := by
    rw [(sortStrings_perm _).length_eq]; simp [GoMap.keys]
  obtain ⟨k, ks, hks⟩ : ∃ k ks, sortStrings (GoMap.keys (e :: rest)) = k :: ks := by
    cases hs : sortStrings (GoMap.keys (e :: rest)) with
    | nil => rw [hs] at hlen; simp at hlen
    | cons k ks => exact ⟨k, ks, rfl⟩
  unfold jsonMarshal at h
  simp only [hks, List.map_cons] at h
  split at h
  · rename_i hall
    cases hv : encVal (GoMap.index GoAny.null (e :: rest) k) with
    | none => simp [hv] at hall
    | some v =>
      simp only [hv, Option.map_some', Option.getD_some, Option.some.injEq] at h
      rw [← h]
      have hge := stringsJoin_length_ge (encKey k ++ ":" ++ v)
        (List.map (fun p => p.getD "")
          (List.map (fun k => Option.map (fun v => encKey k ++ ":" ++ v)
            (encVal (GoMap.index GoAny.null (e :: rest) k))) ks)) ","
      simp only [String.length_append] at hge ⊢
      have h1 : ("\x7b" : String).length = 1 := by decide
      have h2 : ("\x7d" : String).length = 1 := by decide
      have h3 : (":" : String).length = 1 := by decide
      omega
  · exact absurd h (by simp)

/-- C2 (as amended): `buildTemplateParam` returns the empty string for a nil
map, and it returns the two-character string of an opening and a closing
brace exactly for a non-nil map with no entries, whatever the encoders of
keys and values are. -/
theorem buildTemplateParam_nil_and_empty (encKey : String → String)
    (encVal : GoAny → Option String) :
    buildTemplateParam encKey encVal none = "" ∧
    ∀ params : Option (GoMap GoAny),
      buildTemplateParam encKey encVal params = "\x7b\x7d" ↔ params = some [] := by
  refine ⟨rfl, fun params => ?_⟩
  constructor
  · intro h
    cases params with
    | none =>
      have h0 : ("" : String) = "\x7b\x7d" := h
      exact absurd h0 (by decide)
    | some m =>
      cases m with
      | nil => rfl
      | cons e rest =>
        exfalso
        unfold buildTemplateParam at h
        simp only at h
        cases hj : jsonMarshal encKey encVal (e :: rest) with
        | none =>
          rw [hj] at h
          have h0 : ("" : String) = "\x7b\x7d" := h
          exact absurd h0 (by decide)
        | some out =>
          rw [hj] at h
          simp only at h
          have hl := jsonMarshal_length encKey encVal e rest out hj
          rw [h] at hl
          exact absurd hl (by decide)
  · intro h
    subst h
    rfl

/-- C2 (as stated, fails): on a non-nil map with no entries
`buildTemplateParam` returns the two braces, not the empty string. -/
theorem buildTemplateParam_empty_map :
    buildTemplateParam quoteString encodeAny (some []) = "\x7b\x7d" ∧
    buildTemplateParam quoteString encodeAny (some []) ≠ "" := by
  decide

/-- C3 (fails on the code): for the map with the one header `Host`, the name
is lower-cased for the output but the value is looked up under the lower-cased
name, which the map does not contain, so the line carries the empty string
instead of the supplied value; the map with the header `host` gives the line
with the value. The signed-headers strings agree. -/
theorem buildCanonicalHeaders_upper_case_name :
    buildCanonicalHeaders asciiToLower asciiTrimSpace [("Host", "dysmsapi.aliyuncs.com")]
      = ("host:\n", "host") ∧
    buildCanonicalHeaders asciiToLower asciiTrimSpace [("host", "dysmsapi.aliyuncs.com")]
      = ("host:dysmsapi.aliyuncs.com\n", "host") := by
  decide

/-! ## `GetProviders` -/

theorem foldl_set_get (m acc : GoMap SMS) (hnd : (GoMap.keys m).Nodup) (k : String) :
    GoMap.get (m.foldl (fun providers e => providers.set e.1 e.2) acc) k
      = (GoMap.get m k).orElse (fun _ => GoMap.get acc k) := by
  induction m generalizing acc with
  | nil => simp [GoMap.get]
  | cons e rest ih =>
    obtain ⟨k', v⟩ := e
    have hnd2 : k' ∉ GoMap.keys rest ∧ (GoMap.keys rest).Nodup := by
      simpa [GoMap.keys] using hnd
    rw [List.foldl_cons, ih _ hnd2.2]
    by_cases h : k' = k
    · subst h
      have hnone : GoMap.get rest k' = none := (GoMap.get_eq_none_iff rest k').mpr hnd2.1
      simp [hnone, GoMap.get, GoMap.get_set_self]
    · have hne : k ≠ k' := fun h' => h h'.symm
      simp only [GoMap.get, h, if_false, GoMap.get_set_of_ne acc v hne,
        GoMap.get_delete_of_ne acc hne]

theorem copyMap_get (m : GoMap SMS) (hnd : (GoMap.keys m).Nodup) (k : String) :
    GoMap.get (copyMap m) k = GoMap.get m k := by
  unfold copyMap
  rw [foldl_set_get m [] hnd k]
  cases GoMap.get m k <;> simp [GoMap.get]

theorem MapHeap.load_store_self (h : MapHeap) (a : Nat) (m : GoMap SMS) (ha : a < h.length) :
    (h.store a m).load a = m := by
  simp [MapHeap.load, MapHeap.store, List.getD_eq_getElem?_getD, ha]

theorem MapHeap.load_store_of_ne (h : MapHeap) {a i : Nat} (m : GoMap SMS) (hne : i ≠ a) :
    (h.store a m).load i = h.load i := by
  have hne' : a ≠ i := fun h' => hne h'.symm
  simp [MapHeap.load, MapHeap.store, List.getD_eq_getElem?_getD, List.getElem?_set_ne hne']

theorem MapHeap.foldl_store (a : Nat) (es : GoMap SMS) (h : MapHeap) (ha : a < h.length) :
    ((es.foldl (fun hh e => hh.store a ((hh.load a).set e.1 e.2)) h).load a
      = es.foldl (fun providers e => providers.set e.1 e.2) (h.load a)) ∧
    (∀ i, i ≠ a →
      (es.foldl (fun hh e => hh.store a ((hh.load a).set e.1 e.2)) h).load i = h.load i) := by
  induction es generalizing h with
  | nil => simp
  | cons e rest ih =>
    have ha' : a < (h.store a ((h.load a).set e.1 e.2)).length := by
      simpa [MapHeap.store] using ha
    obtain ⟨h1, h2⟩ := ih (h.store a ((h.load a).set e.1 e.2)) ha'
    refine ⟨?_, fun i hi => ?_⟩
    · rw [List.foldl_cons, h1, MapHeap.load_store_self h a _ ha, List.foldl_cons]
    · rw [List.foldl_cons, h2 i hi, MapHeap.load_store_of_ne h _ hi]

theorem ManagerObj.GetProviders_load (o : ManagerObj) (h : MapHeap)
    (hvalid : o.providers < h.length) :
    (o.GetProviders h).1 ≠ o.providers ∧
    (o.GetProviders h).2.load (o.GetProviders h).1 = copyMap (h.load o.providers) ∧
    (o.GetProviders h).2.load o.providers = h.load o.providers := by
  have hlen : h.length < (h ++ [[]] : MapHeap).length := by simp
  obtain ⟨h1, h2⟩ := MapHeap.foldl_store h.length (h.load o.providers) (h ++ [[]]) hlen
  have hnew : (h ++ [[]] : MapHeap).load h.length = [] := by
    simp [MapHeap.load, List.getD_eq_getElem?_getD]
  have hold : (h ++ [[]] : MapHeap).load o.providers = h.load o.providers := by
    simp [MapHeap.load, List.getD_eq_getElem?_getD, List.getElem?_append_left hvalid]
  refine ⟨?_, ?_, ?_⟩
  · show h.length ≠ o.providers
    omega
  · show (List.foldl _ (h ++ [[]]) (h.load o.providers)).load h.length = _
    rw [h1, hnew]; rfl
  · show (List.foldl _ (h ++ [[]]) (h.load o.providers)).load o.providers = _
    rw [h2 o.providers (by omega), hold]

/-- C11: for a registry whose map object exists in the heap (and holds each
name once), `GetProviders` returns a new map object with the same
name-to-provider entries as the registry's map and leaves the registry state
unchanged; whatever is afterwards stored into the returned map object
(insertions, overwrites, deletions), the registry state is unchanged, and so
are the results of `GetProvider`, `SendWithProvider` and `GetProviders` on it. -/
theorem GetProviders_copy (o : ManagerObj) (h : MapHeap) (hvalid : o.providers < h.length)
    (hnd : (GoMap.keys (h.load o.providers)).Nodup) :
    (∀ name, ((o.GetProviders h).2.load (o.GetProviders h).1).get name
      = (o.state h).providers.get name) ∧
    o.state (o.GetProviders h).2 = o.state h ∧
    (∀ mutated : GoMap SMS,
      o.state ((o.GetProviders h).2.store (o.GetProviders h).1 mutated) = o.state h) ∧
    (∀ (mutated : GoMap SMS) (impl : Impl) (ctx : Context) (name : String) (req : SendRequest),
      ((o.state ((o.GetProviders h).2.store (o.GetProviders h).1 mutated)).GetProvider name).1
        = ((o.state h).GetProvider name).1 ∧
      (SendWithProvider impl (o.state ((o.GetProviders h).2.store (o.GetProviders h).1 mutated))
          ctx name req).1 = (SendWithProvider impl (o.state h) ctx name req).1 ∧
      (o.state ((o.GetProviders h).2.store (o.GetProviders h).1 mutated)).GetProviders.1
        = (o.state h).GetProviders.1) := by
  obtain ⟨hne, hcopy, hsame⟩ := ManagerObj.GetProviders_load o h hvalid
  have hstate : ∀ mutated : GoMap SMS,
      o.state ((o.GetProviders h).2.store (o.GetProviders h).1 mutated) = o.state h := by
    intro mutated
    simp only [ManagerObj.state]
    rw [MapHeap.load_store_of_ne _ mutated (Ne.symm hne), hsame]
  refine ⟨fun name => ?_, ?_, hstate, fun mutated impl ctx name req => ?_⟩
  · rw [hcopy]
    exact copyMap_get _ hnd name
  · simp only [ManagerObj.state, hsame]
  · rw [hstate mutated]
    exact ⟨rfl, rfl, rfl⟩

/-- Witness for C11: the registry with provider 7 under two names, whose map
is the only object of the heap. -/
theorem GetProviders_copy_witness :
    exampleObj.providers < exampleHeap.length ∧
    (GoMap.keys (exampleHeap.load exampleObj.providers)).Nodup ∧
    exampleObj.state (exampleObj.GetProviders exampleHeap).2 = exampleObj.state exampleHeap ∧
    exampleObj.state
        ((exampleObj.GetProviders exampleHeap).2.store (exampleObj.GetProviders exampleHeap).1 [])
      = exampleObj.state exampleHeap :=
  ⟨by decide, by decide,
   (GetProviders_copy exampleObj exampleHeap (by decide) (by decide)).2.1,
   (GetProviders_copy exampleObj exampleHeap (by decide) (by decide)).2.2.1 []⟩

/-! ## Every name is held once -/

theorem GoMap.keys_delete_nodup {V : Type} (m : GoMap V) (k : String)
    (hnd : (GoMap.keys m).Nodup) : (GoMap.keys (GoMap.delete m k)).Nodup := by
  unfold GoMap.keys GoMap.delete
  exact (List.Nodup.sublist (List.Sublist.map _ (List.filter_sublist m)) hnd)

theorem GoMap.not_mem_keys_delete {V : Type} (m : GoMap V) (k : String) :
    k ∉ GoMap.keys (GoMap.delete m k) :=
  (GoMap.get_eq_none_iff _ k).mp (GoMap.get_delete_self m k)

theorem GoMap.keys_set_nodup {V : Type} (m : GoMap V) (k : String) (v : V)
    (hnd : (GoMap.keys m).Nodup) : (GoMap.keys (GoMap.set m k v)).Nodup := by
  have h1 := GoMap.keys_delete_nodup m k hnd
  have h2 := GoMap.not_mem_keys_delete m k
  simpa [GoMap.set, GoMap.keys] using And.intro h2 h1

theorem Op.apply_keys_nodup (ti : TypeInfo) (m : SMSManager) (op : Op)
    (hnd : (GoMap.keys m.providers).Nodup) :
    (GoMap.keys (Op.apply ti m op).providers).Nodup := by
  cases op with
  | register name sms => exact GoMap.keys_set_nodup _ _ _ hnd
  | setDefault name =>
    simp only [Op.apply, SetDefault]
    cases m.providers.get name <;> exact hnd
  | removeProvider name =>
    simp only [Op.apply]
    cases hg : m.providers.get name with
    | none => rw [RemoveProvider_of_absent ti m name hg]; exact hnd
    | some sms =>
      cases hc : ifaceEq ti sms m.defaultSMS with
      | none => rw [RemoveProvider_of_panic ti m name sms hg hc]; exact hnd
      | some c =>
        rw [RemoveProvider_of_compared ti m name sms c hg hc]
        exact GoMap.keys_delete_nodup _ _ hnd

theorem runOps_keys_nodup (ti : TypeInfo) (ops : List Op) :
    (GoMap.keys (runOps ti ops).providers).Nodup := by
  have key : ∀ (l : List Op) (m : SMSManager), (GoMap.keys m.providers).Nodup →
      (GoMap.keys (l.foldl (Op.apply ti) m).providers).Nodup := by
    intro l
    induction l with
    | nil => intro m h; exact h
    | cons op rest ih => intro m h; exact ih _ (Op.apply_keys_nodup ti m op h)
  exact key ops NewSMSManager (by simp [NewSMSManager, GoMap.keys])

/-! ## `SetDefault` in two critical sections -/

theorem SetDefaultPc.step_step (m : SMSManager) (name : String) :
    (SetDefaultPc.step name (SetDefaultPc.step name m SetDefaultPc.start).2
        (SetDefaultPc.step name m SetDefaultPc.start).1).2 = (m.SetDefault name).2 := by
  unfold SetDefault
  cases hg : m.providers.get name <;> simp [SetDefaultPc.step, hg]

/-- C15 (fails on the code): `SetDefault` reads the mapping in one critical
section (under `RLock`) and assigns the default in a second one (under
`Lock`). When `RemoveProvider("aliyun")` of another goroutine runs between
the two sections of `SetDefault("aliyun")`, the read section finds provider 7,
the removal succeeds and empties the mapping, and the write section makes 7
the default: the registry ends with a default that is in no entry of the
mapping. This holds whatever the dynamic types of the providers are, as the
removal compares with a nil default. -/
theorem SetDefault_interleaved_with_RemoveProvider (ti : TypeInfo) :
    (SetDefaultPc.step "aliyun" exampleUnset SetDefaultPc.start).1
      = SetDefaultPc.checked (some 7) ∧
    (exampleUnset.RemoveProvider ti "aliyun").1 = ErrorResult.returned none ∧
    (SetDefaultPc.step "aliyun" (exampleUnset.RemoveProvider ti "aliyun").2
        (SetDefaultPc.step "aliyun" exampleUnset SetDefaultPc.start).1)
      = (SetDefaultPc.done, { providers := [], defaultSMS := some 7 }) ∧
    ¬ DefaultPresent
        (SetDefaultPc.step "aliyun" (exampleUnset.RemoveProvider ti "aliyun").2
          (SetDefaultPc.step "aliyun" exampleUnset SetDefaultPc.start).1).2 := by
  have hr : exampleUnset.RemoveProvider ti "aliyun"
      = (ErrorResult.returned none, { providers := [], defaultSMS := none }) := by rfl
  have hm : (SetDefaultPc.step "aliyun" (exampleUnset.RemoveProvider ti "aliyun").2
        (SetDefaultPc.step "aliyun" exampleUnset SetDefaultPc.start).1)
      = (SetDefaultPc.done, { providers := [], defaultSMS := some 7 }) := by
    rw [hr]; decide
  refine ⟨by decide, by rw [hr], hm, ?_⟩
  rw [hm]
  intro h
  obtain ⟨name, hn⟩ := h (by decide)
  simp [GoMap.get] at hn

/-! ## `RemoveProvider` and the default -/

/-- A successful `RemoveProvider(name)` clears the default when the provider
stored under `name` is the same provider as the default and leaves the
default as it was otherwise. When a provider of a comparable dynamic type is
the default and is registered under `name` and under another name, removing
`name` succeeds and clears the default, and the provider stays registered
under the other name. -/
theorem RemoveProvider_default_by_identity (ti : TypeInfo) (m : SMSManager) (name : String)
    (sms : SMS) (hreg : m.providers.get name = some sms) :
    ((m.RemoveProvider ti name).1 = ErrorResult.returned none →
      (sms = m.defaultSMS → (m.RemoveProvider ti name).2.defaultSMS = none) ∧
      (sms ≠ m.defaultSMS → (m.RemoveProvider ti name).2.defaultSMS = m.defaultSMS)) ∧
    (∀ other, other ≠ name → m.providers.get other = some sms → sms = m.defaultSMS →
      (∀ p, sms = some p → ti.comparable (ti.typeOf p) = true) →
      (m.RemoveProvider ti name).1 = ErrorResult.returned none ∧
      (m.RemoveProvider ti name).2.defaultSMS = none ∧
      (m.RemoveProvider ti name).2.providers.get other = some sms) := by
  constructor
  · intro hs
    cases hc : ifaceEq ti sms m.defaultSMS with
    | none =>
      rw [RemoveProvider_of_panic ti m name sms hreg hc] at hs
      exact absurd hs (by simp)
    | some c =>
      rw [RemoveProvider_of_compared ti m name sms c hreg hc]
      constructor
      · intro hd; simp [hd]
      · intro hd; simp [hd]
  · intro other ho hget hd hcmp
    have hc : ifaceEq ti sms m.defaultSMS = some true := by
      rw [← hd]; exact ifaceEq_self ti sms hcmp
    rw [RemoveProvider_of_compared ti m name sms true hreg hc]
    refine ⟨rfl, by simp [hd], ?_⟩
    show (m.providers.delete name).get other = some sms
    rw [GoMap.get_delete_of_ne _ ho]
    exact hget

/-- The pointer provider 7 is the default and is registered as "aliyun" and
as "backup"; removing "aliyun" clears the default and keeps "backup". -/
theorem RemoveProvider_default_by_identity_witness :
    exampleTwoNames.providers.get "aliyun" = some (some 7) ∧
    "backup" ≠ "aliyun" ∧
    exampleTwoNames.providers.get "backup" = some (some 7) ∧
    some 7 = exampleTwoNames.defaultSMS ∧
    (exampleTwoNames.RemoveProvider pointerTypes "aliyun").1 = ErrorResult.returned none ∧
    (exampleTwoNames.RemoveProvider pointerTypes "aliyun").2.defaultSMS = none ∧
    (exampleTwoNames.RemoveProvider pointerTypes "aliyun").2.providers.get "backup"
      = some (some 7) :=
  ⟨by decide, by decide, by decide, by decide,
   (RemoveProvider_default_by_identity pointerTypes exampleTwoNames "aliyun" (some 7)
     (by decide)).2 "backup" (by decide) (by decide) (by decide) (fun _ _ => rfl)⟩

/-- C17 (fails on the code): the provider 7 is the default and is registered
as "aliyun" and as "backup", and its dynamic type is a slice type. Removing
either name panics in the comparison `m.providers[name] == m.defaultSMS` and
changes nothing, so the default is not cleared: it is still 7, and both names
are still registered. -/
theorem RemoveProvider_two_names_panics :
    exampleTwoNames.providers.get "aliyun" = some (some 7) ∧
    exampleTwoNames.providers.get "backup" = some (some 7) ∧
    exampleTwoNames.defaultSMS = some 7 ∧
    exampleTwoNames.RemoveProvider sliceTypes "aliyun"
      = (ErrorResult.panicked, exampleTwoNames) ∧
    exampleTwoNames.RemoveProvider sliceTypes "backup"
      = (ErrorResult.panicked, exampleTwoNames) ∧
    (exampleTwoNames.RemoveProvider sliceTypes "aliyun").2.defaultSMS = some 7 ∧
    (exampleTwoNames.RemoveProvider sliceTypes "backup").2.defaultSMS = some 7 := by
  decide

/-! ## `ValidatePhoneNumber` -/

theorem digitsOnly_iff (l : List Char) :
    digitsOnly l = true ↔ ∀ c ∈ l, 48 ≤ c.toNat ∧ c.toNat ≤ 57 := by
  induction l with
  | nil => simp [digitsOnly]
  | cons c rest ih =>
    by_cases h : c.toNat < 48 ∨ c.toNat > 57
    · simp only [digitsOnly, h, if_true, List.mem_cons, forall_eq_or_imp]
      constructor
      · intro hf; exact absurd hf (by decide)
      · rintro ⟨hc, -⟩; omega
    · simp only [digitsOnly, h, if_false, List.mem_cons, forall_eq_or_imp, ih]
      constructor
      · intro hr; exact ⟨by omega, hr⟩
      · rintro ⟨-, hr⟩; exact hr

theorem utf8EncodeChars_digits (l : List Char) (h : ∀ c ∈ l, 48 ≤ c.toNat ∧ c.toNat ≤ 57) :
    utf8EncodeChars l = l.map Char.toNat := by
  induction l with
  | nil => rfl
  | cons c rest ih =>
    have hc := h c (List.mem_cons_self c rest)
    have hlt : c.toNat < 128 := by omega
    simp [utf8EncodeChars, utf8EncodeChar, hlt, ih fun d hd => h d (List.mem_cons_of_mem c hd)]

/-- C18: `ValidatePhoneNumber` always returns (the index `phone[0]` is
evaluated only when the string has 11 bytes, so it is never out of range),
and it returns true exactly when the string has 11 bytes, its first byte is
`'1'` (49) and every character is one of `'0'..'9'`; equivalently, when the
string has 11 characters, the first is `'1'` and all are ASCII digits. -/
theorem ValidatePhoneNumber_spec (phone : String) :
    (∃ b, ValidatePhoneNumber phone = some b) ∧
    (ValidatePhoneNumber phone = some true ↔
      (utf8Bytes phone).length = 11 ∧ (utf8Bytes phone).head? = some 49 ∧
        ∀ c ∈ phone.data, 48 ≤ c.toNat ∧ c.toNat ≤ 57) ∧
    (ValidatePhoneNumber phone = some true ↔
      phone.data.length = 11 ∧ phone.data.head? = some '1' ∧
        ∀ c ∈ phone.data, 48 ≤ c.toNat ∧ c.toNat ≤ 57) := by
  have hbytes : ValidatePhoneNumber phone = some true ↔
      (utf8Bytes phone).length = 11 ∧ (utf8Bytes phone).head? = some 49 ∧
        ∀ c ∈ phone.data, 48 ≤ c.toNat ∧ c.toNat ≤ 57 := by
    unfold ValidatePhoneNumber
    by_cases hlen : (utf8Bytes phone).length = 11
    · cases hb : utf8Bytes phone with
      | nil => rw [hb] at hlen; simp at hlen
      | cons b rest =>
        rw [hb] at hlen
        have hrest : rest.length = 10 := by simpa using hlen
        by_cases h49 : b = 49
        · simp [hrest, h49, digitsOnly_iff]
        · simp [hrest, h49]
    · simp [hlen]
  refine ⟨?_, hbytes, ?_⟩
  · unfold ValidatePhoneNumber
    by_cases hlen : (utf8Bytes phone).length = 11
    · cases hb : utf8Bytes phone with
      | nil => rw [hb] at hlen; simp at hlen
      | cons b rest =>
        rw [hb] at hlen
        have hrest : rest.length = 10 := by simpa using hlen
        by_cases h49 : b = 49
        · exact ⟨digitsOnly phone.data, by simp [hrest, h49]⟩
        · exact ⟨false, by simp [hrest, h49]⟩
    · exact ⟨false, by simp [hlen]⟩
  · rw [hbytes]
    constructor
    · rintro ⟨h1, h2, h3⟩
      have hmap : utf8Bytes phone = phone.data.map Char.toNat :=
        utf8EncodeChars_digits phone.data h3
      rw [hmap] at h1 h2
      refine ⟨by simpa using h1, ?_, h3⟩
      cases hd : phone.data with
      | nil => rw [hd] at h1; simp at h1
      | cons c rest =>
        rw [hd] at h2
        simp only [List.map_cons, List.head?_cons, Option.some.injEq] at h2
        have hc : c = '1' := by rw [← Char.ofNat_toNat c, h2]
        simp [hc]
    · rintro ⟨h1, h2, h3⟩
      have hmap : utf8Bytes phone = phone.data.map Char.toNat :=
        utf8EncodeChars_digits phone.data h3
      rw [hmap]
      refine ⟨by simpa using h1, ?_, h3⟩
      cases hd : phone.data with
      | nil => rw [hd] at h1; simp at h1
      | cons c rest =>
        rw [hd] at h2
        simp only [List.head?_cons, Option.some.injEq] at h2
        simp [h2]

/-! ## Hexadecimal digests -/

theorem lowerHexDigit_mem (n : Nat) (h : n < 16) :
    lowerHexDigit n ∈
      ['0', '1', '2', '3', '4', '5', '6', '7', '8', '9', 'a', 'b', 'c', 'd', 'e', 'f'] := by
  have key : ∀ i : Fin 16, lowerHexDigit i.val ∈
      ['0', '1', '2', '3', '4', '5', '6', '7', '8', '9', 'a', 'b', 'c', 'd', 'e', 'f'] := by
    decide
  exact key ⟨n, h⟩

theorem hexEncode_length (l : List (Fin 256)) : (hexEncode l).length = 2 * l.length := by
  induction l with
  | nil => rfl
  | cons b rest ih => simp [hexEncode, ih]; omega

theorem hexEncode_mem (l : List (Fin 256)) : ∀ c ∈ hexEncode l, c ∈
    ['0', '1', '2', '3', '4', '5', '6', '7', '8', '9', 'a', 'b', 'c', 'd', 'e', 'f'] := by
  induction l with
  | nil => intro c hc; simp [hexEncode] at hc
  | cons b rest ih =>
    intro c hc
    simp only [hexEncode, List.mem_cons] at hc
    rcases hc with hc | hc | hc
    · rw [hc]; exact lowerHexDigit_mem _ (by have := b.isLt; omega)
    · rw [hc]; exact lowerHexDigit_mem _ (by omega)
    · exact ih c hc

theorem hexDigest_format (d : Digest) :
    (String.mk (hexEncode d.bytes)).length = 64 ∧
    ∀ c ∈ (String.mk (hexEncode d.bytes)).data, c ∈
      ['0', '1', '2', '3', '4', '5', '6', '7', '8', '9', 'a', 'b', 'c', 'd', 'e', 'f'] := by
  refine ⟨?_, hexEncode_mem d.bytes⟩
  show (hexEncode d.bytes).length = 64
  rw [hexEncode_length, d.size]

/-! ## `PercentEncode` -/

theorem upperHexDigit_isUpperHex (n : Nat) : isUpperHex (upperHexDigit n) = true := by
  by_cases h : n < 16
  · have key : ∀ i : Fin 16, isUpperHex (upperHexDigit i.val) = true := by decide
    exact key ⟨n, h⟩
  · have hlen : ['0', '1', '2', '3', '4', '5', '6', '7', '8', '9', 'A', 'B', 'C', 'D', 'E',
        'F'].length ≤ n := by simpa using Nat.le_of_not_lt h
    unfold upperHexDigit
    rw [List.getD_eq_default _ _ hlen]
    decide

theorem upperHexDigit_seven_E (c : Nat) (h1 : upperHexDigit (c / 16) = '7')
    (h2 : upperHexDigit (c % 16) = 'E') : c = 126 := by
  have k1 : ∀ i : Fin 16, upperHexDigit i.val = '7' → i.val = 7 := by decide
  have k2 : ∀ i : Fin 16, upperHexDigit i.val = 'E' → i.val = 14 := by decide
  have hq : c / 16 = 7 := by
    by_cases h : c / 16 < 16
    · exact k1 ⟨c / 16, h⟩ h1
    · have hlen : ['0', '1', '2', '3', '4', '5', '6', '7', '8', '9', 'A', 'B', 'C', 'D', 'E',
          'F'].length ≤ c / 16 := by simpa using Nat.le_of_not_lt h
      unfold upperHexDigit at h1
      rw [List.getD_eq_default _ _ hlen] at h1
      exact absurd h1 (by decide)
  have hr : c % 16 = 14 := k2 ⟨c % 16, Nat.mod_lt _ (by decide)⟩ h2
  omega

theorem isUpperHex_ne {c : Char} (h : isUpperHex c = true) :
    c ≠ '+' ∧ c ≠ '*' ∧ c ≠ '%' := by
  refine ⟨?_, ?_, ?_⟩ <;> (intro hc; rw [hc] at h; exact absurd h (by decide))

theorem shouldEscape_false_lt {c : Nat} (h : shouldEscape c = false) : c < 128 := by
  unfold shouldEscape at h
  split at h
  · omega
  · split at h
    · omega
    · exact absurd h (by decide)

theorem toNat_ofNat_of_lt (c : Nat) (h : c < 128) : (Char.ofNat c).toNat = c := by
  have key : ∀ i : Fin 128, (Char.ofNat i.val).toNat = i.val := by decide
  exact key ⟨c, h⟩

theorem unreserved_ne {c : Nat} (h : shouldEscape c = false) :
    Char.ofNat c ≠ '+' ∧ Char.ofNat c ≠ '*' ∧ Char.ofNat c ≠ '%' ∧
    isUnreserved (Char.ofNat c) = true := by
  have hn := toNat_ofNat_of_lt c (shouldEscape_false_lt h)
  have hne : ∀ d : Char, shouldEscape d.toNat = true → Char.ofNat c ≠ d := by
    intro d hd hc
    rw [← hc, hn, h] at hd
    exact absurd hd (by decide)
  refine ⟨hne _ (by decide), hne _ (by decide), hne _ (by decide), ?_⟩
  simp [isUnreserved, hn, h]

theorem replaceFrom_single (x : Char) (new : List Char) (c : Char) (rest : List Char) :
    replaceFrom [x] new 0 (c :: rest)
      = (if x = c then new else [c]) ++ replaceFrom [x] new 0 rest := by
  by_cases h : x = c <;> simp [replaceFrom, List.isPrefixOf, h]

theorem replaceFrom_single_of_ne (x : Char) (new : List Char) (c : Char) (rest : List Char)
    (h : c ≠ x) : replaceFrom [x] new 0 (c :: rest) = c :: replaceFrom [x] new 0 rest := by
  rw [replaceFrom_single]
  simp [Ne.symm h]

theorem replaceFrom_plus (c : Nat) (rest : List Char) :
    replaceFrom ['+'] ['%', '2', '0'] 0 (escapeByte c ++ rest)
      = percentByte c ++ replaceFrom ['+'] ['%', '2', '0'] 0 rest := by
  unfold escapeByte percentByte
  by_cases he : shouldEscape c = true
  · by_cases hs : c = 32
    · subst hs
      simp only [he, if_true, List.singleton_append]
      rw [replaceFrom_single]
      rfl
    · have h1 := (isUpperHex_ne (upperHexDigit_isUpperHex (c / 16))).1
      have h2 := (isUpperHex_ne (upperHexDigit_isUpperHex (c % 16))).1
      simp only [he, hs, if_true, if_false, List.cons_append, List.nil_append]
      rw [replaceFrom_single_of_ne _ _ _ _ (by decide), replaceFrom_single_of_ne _ _ _ _ h1,
        replaceFrom_single_of_ne _ _ _ _ h2]
  · have hf : shouldEscape c = false := by simpa using he
    simp only [hf, List.singleton_append]
    exact replaceFrom_single_of_ne _ _ _ _ (unreserved_ne hf).1

theorem replaceFrom_star (c : Nat) (rest : List Char) :
    replaceFrom ['*'] ['%', '2', 'A'] 0 (percentByte c ++ rest)
      = percentByte c ++ replaceFrom ['*'] ['%', '2', 'A'] 0 rest := by
  unfold percentByte
  by_cases he : shouldEscape c = true
  · have h1 := (isUpperHex_ne (upperHexDigit_isUpperHex (c / 16))).2.1
    have h2 := (isUpperHex_ne (upperHexDigit_isUpperHex (c % 16))).2.1
    simp only [he, if_true, List.cons_append, List.nil_append]
    rw [replaceFrom_single_of_ne _ _ _ _ (by decide), replaceFrom_single_of_ne _ _ _ _ h1,
      replaceFrom_single_of_ne _ _ _ _ h2]
  · have hf : shouldEscape c = false := by simpa using he
    simp only [hf, List.singleton_append]
    exact replaceFrom_single_of_ne _ _ _ _ (unreserved_ne hf).2.1

theorem replaceFrom_tilde_of_ne (c : Char) (rest : List Char) (h : c ≠ '%') :
    replaceFrom ['%', '7', 'E'] ['~'] 0 (c :: rest)
      = c :: replaceFrom ['%', '7', 'E'] ['~'] 0 rest := by
  have h' : ¬ '%' = c := fun hc => h hc.symm
  simp [replaceFrom, List.isPrefixOf, h']

theorem replaceFrom_tilde (c : Nat) (rest : List Char) :
    replaceFrom ['%', '7', 'E'] ['~'] 0 (percentByte c ++ rest)
      = percentByte c ++ replaceFrom ['%', '7', 'E'] ['~'] 0 rest := by
  unfold percentByte
  by_cases he : shouldEscape c = true
  · have h1 := (isUpperHex_ne (upperHexDigit_isUpperHex (c / 16))).2.2
    have h2 := (isUpperHex_ne (upperHexDigit_isUpperHex (c % 16))).2.2
    have hno : ¬ ('7' = upperHexDigit (c / 16) ∧ 'E' = upperHexDigit (c % 16)) := by
      rintro ⟨ha, hb⟩
      have h126 := upperHexDigit_seven_E c ha.symm hb.symm
      rw [h126] at he
      exact absurd he (by decide)
    simp only [he, if_true, List.cons_append, List.nil_append]
    have hstep : replaceFrom ['%', '7', 'E'] ['~'] 0
          ('%' :: upperHexDigit (c / 16) :: upperHexDigit (c % 16) :: rest)
        = '%' :: replaceFrom ['%', '7', 'E'] ['~'] 0
            (upperHexDigit (c / 16) :: upperHexDigit (c % 16) :: rest) := by
      by_cases ha : '7' = upperHexDigit (c / 16)
      · have hb : ¬ 'E' = upperHexDigit (c % 16) := fun hb => hno ⟨ha, hb⟩
        simp [replaceFrom, List.isPrefixOf, ← ha, hb]
      · simp [replaceFrom, List.isPrefixOf, ha]
    rw [hstep, replaceFrom_tilde_of_ne _ _ h1, replaceFrom_tilde_of_ne _ _ h2]
  · have hf : shouldEscape c = false := by simpa using he
    simp only [hf, List.singleton_append]
    exact replaceFrom_tilde_of_ne _ _ (unreserved_ne hf).2.2.1

theorem replaceFrom_escapeBytes (bs : List Nat) :
    replaceFrom ['+'] ['%', '2', '0'] 0 (escapeBytes bs) = percentBytes bs := by
  induction bs with
  | nil => rfl
  | cons c rest ih => rw [escapeBytes, replaceFrom_plus, ih, percentBytes]

theorem replaceFrom_star_percentBytes (bs : List Nat) :
    replaceFrom ['*'] ['%', '2', 'A'] 0 (percentBytes bs) = percentBytes bs := by
  induction bs with
  | nil => rfl
  | cons c rest ih => rw [percentBytes, replaceFrom_star, ih]

theorem replaceFrom_tilde_percentBytes (bs : List Nat) :
    replaceFrom ['%', '7', 'E'] ['~'] 0 (percentBytes bs) = percentBytes bs := by
  induction bs with
  | nil => rfl
  | cons c rest ih => rw [percentBytes, replaceFrom_tilde, ih]

theorem PercentEncode_eq (str : String) :
    PercentEncode str = String.mk (percentBytes (utf8Bytes str)) := by
  have h1 : ("+" : String).data = ['+'] := rfl
  have h2 : ("%20" : String).data = ['%', '2', '0'] := rfl
  have h3 : ("*" : String).data = ['*'] := rfl
  have h4 : ("%2A" : String).data = ['%', '2', 'A'] := rfl
  have h5 : ("%7E" : String).data = ['%', '7', 'E'] := rfl
  have h6 : ("~" : String).data = ['~'] := rfl
  simp only [PercentEncode, stringsReplaceAll, QueryEscape, h1, h2, h3, h4, h5, h6,
    replaceFrom_escapeBytes, replaceFrom_star_percentBytes, replaceFrom_tilde_percentBytes]

theorem percentEncoded_cons_of_ne (c : Char) (rest : List Char) (h : c ≠ '%') :
    percentEncoded (c :: rest) = (isUnreserved c && percentEncoded rest) := by
  rcases rest with _ | ⟨a, _ | ⟨b, r⟩⟩ <;> simp [percentEncoded, h]

theorem percentBytes_encoded (bs : List Nat) :
    percentEncoded (percentBytes bs) = true ∧
    ∀ c ∈ percentBytes bs, c ≠ '+' ∧ c ≠ '*' := by
  induction bs with
  | nil => exact ⟨rfl, fun c hc => by simp [percentBytes] at hc⟩
  | cons b rest ih =>
    by_cases he : shouldEscape b = true
    · have hx := upperHexDigit_isUpperHex (b / 16)
      have hy := upperHexDigit_isUpperHex (b % 16)
      have hform : percentBytes (b :: rest)
          = '%' :: upperHexDigit (b / 16) :: upperHexDigit (b % 16) :: percentBytes rest := by
        simp [percentBytes, percentByte, he]
      rw [hform]
      refine ⟨by simp [percentEncoded, hx, hy, ih.1], fun c hc => ?_⟩
      simp only [List.mem_cons] at hc
      rcases hc with hc | hc | hc | hc
      · rw [hc]; exact ⟨by decide, by decide⟩
      · rw [hc]; exact ⟨(isUpperHex_ne hx).1, (isUpperHex_ne hx).2.1⟩
      · rw [hc]; exact ⟨(isUpperHex_ne hy).1, (isUpperHex_ne hy).2.1⟩
      · exact ih.2 c hc
    · have hf : shouldEscape b = false := by simpa using he
      have hu := unreserved_ne hf
      have hform : percentBytes (b :: rest) = Char.ofNat b :: percentBytes rest := by
        simp [percentBytes, percentByte, hf]
      rw [hform]
      refine ⟨by rw [percentEncoded_cons_of_ne _ _ hu.2.2.1, hu.2.2.2, ih.1]; rfl,
        fun c hc => ?_⟩
      simp only [List.mem_cons] at hc
      rcases hc with hc | hc
      · rw [hc]; exact ⟨hu.1, hu.2.1⟩
      · exact ih.2 c hc

/-- C20: for every string, `PercentEncode` returns the percent-encoded form
of its bytes: each unreserved byte (`A-Z`, `a-z`, `0-9`, `-`, `_`, `.`, `~`)
as itself and every other byte as `%XX` with upper-case hexadecimal digits. So
the result consists of unreserved characters and such triplets only, holds no
`+` and no `*`, and a space becomes `%20`, a `*` becomes `%2A` and a `~`
stays a `~`. -/
theorem PercentEncode_spec (str : String) :
    PercentEncode str = String.mk (percentBytes (utf8Bytes str)) ∧
    percentEncoded (PercentEncode str).data = true ∧
    '+' ∉ (PercentEncode str).data ∧ '*' ∉ (PercentEncode str).data ∧
    percentByte 32 = ['%', '2', '0'] ∧ percentByte 42 = ['%', '2', 'A'] ∧
    percentByte 126 = ['~'] ∧
    PercentEncode " " = "%20" ∧ PercentEncode "*" = "%2A" ∧ PercentEncode "~" = "~" := by
  have henc := percentBytes_encoded (utf8Bytes str)
  refine ⟨PercentEncode_eq str, ?_, ?_, ?_, by decide, by decide, by decide, by decide,
    by decide, by decide⟩
  · rw [PercentEncode_eq]; exact henc.1
  · rw [PercentEncode_eq]; exact fun h => (henc.2 _ h).1 rfl
  · rw [PercentEncode_eq]; exact fun h => (henc.2 _ h).2 rfl

/-! ## Signing -/

open AliyunSMS

/-- C19: for every input, `SHA256Hash`, `hmacSha256Hex` and `HMACSHA256`
return 64 characters, each one of `0-9`, `a-f`: the lower-case hexadecimal
form of the 32-byte digest, for any digest functions. -/
theorem hex_digest_strings (sum256 : String → Digest) (hmacSum : String → String → Digest)
    (data key : String) :
    ((SHA256Hash sum256 data).length = 64 ∧
      ∀ c ∈ (SHA256Hash sum256 data).data, c ∈
        ['0', '1', '2', '3', '4', '5', '6', '7', '8', '9', 'a', 'b', 'c', 'd', 'e', 'f']) ∧
    ((hmacSha256Hex hmacSum key data).length = 64 ∧
      ∀ c ∈ (hmacSha256Hex hmacSum key data).data, c ∈
        ['0', '1', '2', '3', '4', '5', '6', '7', '8', '9', 'a', 'b', 'c', 'd', 'e', 'f']) ∧
    ((HMACSHA256 hmacSum data key).length = 64 ∧
      ∀ c ∈ (HMACSHA256 hmacSum data key).data, c ∈
        ['0', '1', '2', '3', '4', '5', '6', '7', '8', '9', 'a', 'b', 'c', 'd', 'e', 'f']) :=
  ⟨hexDigest_format (sum256 data), hexDigest_format (hmacSum key data),
   hexDigest_format (hmacSum key data)⟩

theorem canonicalRequest_join (canonicalHeaders signedHeaders bodyHash : String) :
    canonicalRequest canonicalHeaders signedHeaders bodyHash
      = stringsJoin ["POST", "/", "", canonicalHeaders, signedHeaders, bodyHash] "\n" := by
  have h : ("POST\n/\n\n" : String) = "POST" ++ "\n" ++ ("/" ++ "\n" ++ ("" ++ "\n")) := by
    decide
  simp only [canonicalRequest, stringsJoin, h, String.append_assoc]

/-- C13: the canonical request `Send` builds from the canonical headers `H`,
the signed headers `S` and the body hash `B` is the six strings `POST`, `/`,
the empty string, `H`, `S`, `B` joined by one newline each, where `H` ends
with its own newline; the string to sign is `ACS3-HMAC-SHA256`, a newline and
the hexadecimal SHA-256 of the canonical request, for any digest function. -/
theorem Send_canonicalRequest (lib : StdLib) (a : AliyunSMS) (body : String)
    (headers : GoMap String) :
    (signWith lib a body headers).canonicalRequest
      = stringsJoin ["POST", "/", "", (signWith lib a body headers).canonicalHeaders,
          (signWith lib a body headers).signedHeaders, (signWith lib a body headers).bodyHash]
          "\n" ∧
    (∃ block, (signWith lib a body headers).canonicalHeaders = block ++ "\n") ∧
    ((signWith lib a body headers).canonicalHeaders, (signWith lib a body headers).signedHeaders)
      = buildCanonicalHeaders lib.toLower lib.trimSpace headers ∧
    (signWith lib a body headers).bodyHash = SHA256Hash lib.sum256 body ∧
    (signWith lib a body headers).stringToSign
      = "ACS3-HMAC-SHA256" ++ "\n"
        ++ SHA256Hash lib.sum256 (signWith lib a body headers).canonicalRequest := by
  refine ⟨canonicalRequest_join _ _ _, ⟨_, rfl⟩, rfl, rfl, ?_⟩
  have h : ("ACS3-HMAC-SHA256\n" : String) = "ACS3-HMAC-SHA256" ++ "\n" := by decide
  simp only [signWith, h]

theorem sendHeaders_keys (a : AliyunSMS) (bodyHash date nonce : String) :
    GoMap.keys (a.sendHeaders bodyHash date nonce)
      = ["host", "x-acs-action", "x-acs-content-sha256", "x-acs-date", "x-acs-signature-nonce",
         "x-acs-version"] := rfl

theorem signWith_perm (lib : StdLib) (a : AliyunSMS) (body date nonce : String)
    (headers : GoMap String)
    (hp : headers.Perm (a.sendHeaders (SHA256Hash lib.sum256 body) date nonce)) :
    signWith lib a body headers = sign lib a body date nonce := by
  have hnd : (GoMap.keys (a.sendHeaders (SHA256Hash lib.sum256 body) date nonce)).Nodup := by
    rw [sendHeaders_keys]; decide
  have h := buildCanonicalHeaders_perm lib.toLower lib.trimSpace hnd hp
  simp only [sign, signWith, h]

theorem sign_signedHeaders (lib : StdLib) (a : AliyunSMS) (body date nonce : String)
    (hlow : ∀ k ∈ ["host", "x-acs-action", "x-acs-content-sha256", "x-acs-date",
      "x-acs-signature-nonce", "x-acs-version"], lib.toLower k = k) :
    (sign lib a body date nonce).signedHeaders
      = "host;x-acs-action;x-acs-content-sha256;x-acs-date;x-acs-signature-nonce;x-acs-version"
    := by
  have hid : (["host", "x-acs-action", "x-acs-content-sha256", "x-acs-date",
      "x-acs-signature-nonce", "x-acs-version"] : List String).map lib.toLower
      = ["host", "x-acs-action", "x-acs-content-sha256", "x-acs-date",
        "x-acs-signature-nonce", "x-acs-version"] := by
    conv_rhs => rw [← List.map_id ["host", "x-acs-action", "x-acs-content-sha256", "x-acs-date",
      "x-acs-signature-nonce", "x-acs-version"]]
    exact List.map_congr_left fun k hk => by simpa using hlow k hk
  show stringsJoin (sortStrings ((GoMap.keys (a.sendHeaders _ date nonce)).map lib.toLower)) ";"
    = _
  rw [sendHeaders_keys, hid]
  decide

theorem sign_sorted_names (lib : StdLib)
    (hlow : ∀ k ∈ ["host", "x-acs-action", "x-acs-content-sha256", "x-acs-date",
      "x-acs-signature-nonce", "x-acs-version"], lib.toLower k = k) :
    sortStrings ((["host", "x-acs-action", "x-acs-content-sha256", "x-acs-date",
        "x-acs-signature-nonce", "x-acs-version"] : List String).map lib.toLower)
      = ["host", "x-acs-action", "x-acs-content-sha256", "x-acs-date",
        "x-acs-signature-nonce", "x-acs-version"] := by
  have hid : (["host", "x-acs-action", "x-acs-content-sha256", "x-acs-date",
      "x-acs-signature-nonce", "x-acs-version"] : List String).map lib.toLower
      = ["host", "x-acs-action", "x-acs-content-sha256", "x-acs-date",
        "x-acs-signature-nonce", "x-acs-version"] := by
    conv_rhs => rw [← List.map_id ["host", "x-acs-action", "x-acs-content-sha256", "x-acs-date",
      "x-acs-signature-nonce", "x-acs-version"]]
    exact List.map_congr_left fun k hk => by simpa using hlow k hk
  rw [hid]
  decide

theorem sign_canonicalHeaders (lib : StdLib) (a : AliyunSMS) (body date nonce : String)
    (hlow : ∀ k ∈ ["host", "x-acs-action", "x-acs-content-sha256", "x-acs-date",
      "x-acs-signature-nonce", "x-acs-version"], lib.toLower k = k) :
    (sign lib a body date nonce).canonicalHeaders
      = concatAll
          ["host" ++ ":" ++ lib.trimSpace a.endpoint ++ "\n",
           "x-acs-action" ++ ":" ++ lib.trimSpace a.action ++ "\n",
           "x-acs-content-sha256" ++ ":"
             ++ lib.trimSpace (String.mk (hexEncode (lib.sum256 body).bytes)) ++ "\n",
           "x-acs-date" ++ ":" ++ lib.trimSpace date ++ "\n",
           "x-acs-signature-nonce" ++ ":" ++ lib.trimSpace nonce ++ "\n",
           "x-acs-version" ++ ":" ++ lib.trimSpace a.version ++ "\n"] := by
  show stringsJoin
      ((sortStrings ((GoMap.keys (a.sendHeaders (SHA256Hash lib.sum256 body) date nonce)).map
          lib.toLower)).map
        fun k => k ++ ":" ++ lib.trimSpace
          ((a.sendHeaders (SHA256Hash lib.sum256 body) date nonce).index "" k)) "\n" ++ "\n" = _
  rw [sendHeaders_keys, sign_sorted_names lib hlow, stringsJoin_newline _ (by simp)]
  rfl

/-- C14: for a provider built by `NewAliyunSMS(accessId, secret)` and every
body, timestamp and nonce, the `Authorization` value `Send` computes is
`ACS3-HMAC-SHA256 Credential=`, the access id, the fixed list of the six
signed header names, and as signature the lower-case hexadecimal form of the
HMAC-SHA256 digest with the secret as key and the string to sign as message.
The string to sign is the hexadecimal SHA-256 of the canonical request after
`ACS3-HMAC-SHA256` and a newline, and the canonical request carries the
headers `host` "dysmsapi.aliyuncs.com", `x-acs-action` "SendSms" and
`x-acs-version` "2017-05-25" beside the body hash, the timestamp and the
nonce. Every traversal order of the header map gives the same values, so they
depend on the timestamp, the nonce, the body and the credentials only. The
digest functions are arbitrary. -/
theorem Send_authorization (lib : StdLib) (accessId secret body date nonce : String)
    (hlow : ∀ k ∈ ["host", "x-acs-action", "x-acs-content-sha256", "x-acs-date",
      "x-acs-signature-nonce", "x-acs-version"], lib.toLower k = k) :
    (sign lib (NewAliyunSMS accessId secret) body date nonce).authorization
      = "ACS3-HMAC-SHA256 Credential=" ++ accessId
        ++ ",SignedHeaders=host;x-acs-action;x-acs-content-sha256;x-acs-date;x-acs-signature-nonce;x-acs-version,Signature="
        ++ String.mk (hexEncode (lib.hmacSum secret
            (sign lib (NewAliyunSMS accessId secret) body date nonce).stringToSign).bytes) ∧
    (sign lib (NewAliyunSMS accessId secret) body date nonce).signature
      = String.mk (hexEncode (lib.hmacSum secret
          (sign lib (NewAliyunSMS accessId secret) body date nonce).stringToSign).bytes) ∧
    (sign lib (NewAliyunSMS accessId secret) body date nonce).stringToSign
      = "ACS3-HMAC-SHA256\n" ++ String.mk (hexEncode (lib.sum256
          (sign lib (NewAliyunSMS accessId secret) body date nonce).canonicalRequest).bytes) ∧
    (sign lib (NewAliyunSMS accessId secret) body date nonce).canonicalRequest
      = "POST\n/\n\n"
        ++ (sign lib (NewAliyunSMS accessId secret) body date nonce).canonicalHeaders ++ "\n"
        ++ "host;x-acs-action;x-acs-content-sha256;x-acs-date;x-acs-signature-nonce;x-acs-version"
        ++ "\n" ++ String.mk (hexEncode (lib.sum256 body).bytes) ∧
    (sign lib (NewAliyunSMS accessId secret) body date nonce).canonicalHeaders
      = concatAll
          ["host" ++ ":" ++ lib.trimSpace "dysmsapi.aliyuncs.com" ++ "\n",
           "x-acs-action" ++ ":" ++ lib.trimSpace "SendSms" ++ "\n",
           "x-acs-content-sha256" ++ ":"
             ++ lib.trimSpace (String.mk (hexEncode (lib.sum256 body).bytes)) ++ "\n",
           "x-acs-date" ++ ":" ++ lib.trimSpace date ++ "\n",
           "x-acs-signature-nonce" ++ ":" ++ lib.trimSpace nonce ++ "\n",
           "x-acs-version" ++ ":" ++ lib.trimSpace "2017-05-25" ++ "\n"] ∧
    ((NewAliyunSMS accessId secret).sendHeaders (SHA256Hash lib.sum256 body) date nonce).get
        "x-acs-action" = some "SendSms" ∧
    ((NewAliyunSMS accessId secret).sendHeaders (SHA256Hash lib.sum256 body) date nonce).get
        "x-acs-version" = some "2017-05-25" ∧
    ((NewAliyunSMS accessId secret).sendHeaders (SHA256Hash lib.sum256 body) date nonce).get
        "host" = some "dysmsapi.aliyuncs.com" ∧
    ∀ headers : GoMap String,
      headers.Perm
        ((NewAliyunSMS accessId secret).sendHeaders (SHA256Hash lib.sum256 body) date nonce) →
      signWith lib (NewAliyunSMS accessId secret) body headers
        = sign lib (NewAliyunSMS accessId secret) body date nonce := by
  have hs := sign_signedHeaders lib (NewAliyunSMS accessId secret) body date nonce hlow
  have hcr : (sign lib (NewAliyunSMS accessId secret) body date nonce).canonicalRequest
      = "POST\n/\n\n"
        ++ (sign lib (NewAliyunSMS accessId secret) body date nonce).canonicalHeaders ++ "\n"
        ++ (sign lib (NewAliyunSMS accessId secret) body date nonce).signedHeaders
        ++ "\n" ++ String.mk (hexEncode (lib.sum256 body).bytes) := rfl
  refine ⟨?_, rfl, rfl, by rw [hcr, hs],
    sign_canonicalHeaders lib (NewAliyunSMS accessId secret) body date nonce hlow,
    rfl, rfl, rfl, fun headers hp => signWith_perm lib _ body date nonce headers hp⟩
  have hauth : (sign lib (NewAliyunSMS accessId secret) body date nonce).authorization
      = "ACS3-HMAC-SHA256 Credential=" ++ accessId ++ ",SignedHeaders="
        ++ (sign lib (NewAliyunSMS accessId secret) body date nonce).signedHeaders
        ++ ",Signature="
        ++ String.mk (hexEncode (lib.hmacSum secret
            (sign lib (NewAliyunSMS accessId secret) body date nonce).stringToSign).bytes) := rfl
  rw [hauth, hs]
  have hlit : (",SignedHeaders=" : String)
      ++ "host;x-acs-action;x-acs-content-sha256;x-acs-date;x-acs-signature-nonce;x-acs-version"
      ++ ",Signature="
      = ",SignedHeaders=host;x-acs-action;x-acs-content-sha256;x-acs-date;x-acs-signature-nonce;x-acs-version,Signature="
      := by decide
  rw [String.append_assoc ("ACS3-HMAC-SHA256 Credential=" ++ accessId) ",SignedHeaders=",
    String.append_assoc ("ACS3-HMAC-SHA256 Credential=" ++ accessId) _ ",Signature=", hlit]

/-- Witness for C14: the ASCII library functions keep the six header names. -/
theorem Send_authorization_witness :
    (∀ k ∈ ["host", "x-acs-action", "x-acs-content-sha256", "x-acs-date",
      "x-acs-signature-nonce", "x-acs-version"], exampleLib.toLower k = k) ∧
    (sign exampleLib (NewAliyunSMS "id" "secret") "a=1" "2024-01-02T03:04:05Z" "17").authorization
      = "ACS3-HMAC-SHA256 Credential=" ++ "id"
        ++ ",SignedHeaders=host;x-acs-action;x-acs-content-sha256;x-acs-date;x-acs-signature-nonce;x-acs-version,Signature="
        ++ String.mk (hexEncode (exampleLib.hmacSum "secret"
            (sign exampleLib (NewAliyunSMS "id" "secret") "a=1" "2024-01-02T03:04:05Z"
              "17").stringToSign).bytes) :=
  ⟨by decide,
   (Send_authorization exampleLib "id" "secret" "a=1" "2024-01-02T03:04:05Z" "17"
     (by decide)).1⟩

/-- C16 (as amended): `encodeForm` returns the strings
`QueryEscape(key)=QueryEscape(value)`, one per entry, joined by `&`, in the
order in which the entries are traversed; another traversal order gives the
same pairs in another order. For a fixed body, timestamp, nonce and
credentials, the values `Send` computes for the signature are the same for
every traversal order of the header map. -/
theorem encodeForm_pairs (m : GoMap String) :
    encodeForm m = stringsJoin (m.map fun e => QueryEscape e.1 ++ "=" ++ QueryEscape e.2) "&" ∧
    (m.map fun e => QueryEscape e.1 ++ "=" ++ QueryEscape e.2).length = m.length ∧
    (∀ other : GoMap String, other.Perm m →
      (other.map fun e => QueryEscape e.1 ++ "=" ++ QueryEscape e.2).Perm
        (m.map fun e => QueryEscape e.1 ++ "=" ++ QueryEscape e.2)) ∧
    (∀ (lib : StdLib) (a : AliyunSMS) (body date nonce : String) (headers : GoMap String),
      headers.Perm (a.sendHeaders (SHA256Hash lib.sum256 body) date nonce) →
      signWith lib a body headers = sign lib a body date nonce) :=
  ⟨rfl, List.length_map _ _, fun _ hp => hp.map _,
   fun lib a body date nonce headers hp => signWith_perm lib a body date nonce headers hp⟩

/-- Witness for C16: the form of the example request, traversed backwards. -/
theorem encodeForm_pairs_witness :
    (sendForm "" exampleRequest).reverse.Perm (sendForm "" exampleRequest) ∧
    ((sendForm "" exampleRequest).reverse.map fun e =>
        QueryEscape e.1 ++ "=" ++ QueryEscape e.2).Perm
      ((sendForm "" exampleRequest).map fun e => QueryEscape e.1 ++ "=" ++ QueryEscape e.2) :=
  ⟨List.reverse_perm _,
   (encodeForm_pairs (sendForm "" exampleRequest)).2.2.1 _ (List.reverse_perm _)⟩

/-- C16 (as stated, fails): the form `Send` builds for the example request,
traversed in the order of the map literal and in the reverse order, gives two
different bodies. -/
theorem encodeForm_order_dependent :
    (sendForm (buildTemplateParam quoteString encodeAny exampleRequest.TemplateParam)
        exampleRequest).reverse.Perm
      (sendForm (buildTemplateParam quoteString encodeAny exampleRequest.TemplateParam)
        exampleRequest) ∧
    encodeForm (sendForm (buildTemplateParam quoteString encodeAny exampleRequest.TemplateParam)
        exampleRequest)
      = "PhoneNumbers=13800000000&SignName=Acme&TemplateCode=SMS_001&TemplateParam=%7B%22code%22%3A%22123456%22%7D" ∧
    encodeForm (sendForm (buildTemplateParam quoteString encodeAny exampleRequest.TemplateParam)
        exampleRequest).reverse
      = "TemplateParam=%7B%22code%22%3A%22123456%22%7D&TemplateCode=SMS_001&SignName=Acme&PhoneNumbers=13800000000" ∧
    encodeForm (sendForm (buildTemplateParam quoteString encodeAny exampleRequest.TemplateParam)
        exampleRequest).reverse
      ≠ encodeForm (sendForm (buildTemplateParam quoteString encodeAny
          exampleRequest.TemplateParam) exampleRequest) :=
  ⟨List.reverse_perm _, by decide, by decide, by decide⟩

/-! ## The response -/

/-- C12: when `json.Unmarshal` returns no error, `parseResponse` returns no
error and a response whose `Code`, `Message`, `RequestId` and `BizId` are the
decoded fields (the struct decoded into starts with four empty strings),
whose `Success` is true exactly when `Code` is "OK", and whose `Data` is an
empty map; when `json.Unmarshal` returns an error, `parseResponse` returns
that error and a nil response. It never returns both a response and an error,
nor neither. -/
theorem parseResponse_spec
    (unmarshal : String → ResponseFields → Option String × ResponseFields) (body : String) :
    ((unmarshal body { Code := "", Message := "", RequestId := "", BizId := "" }).1 = none →
      ∃ r : SendResponse, parseResponse unmarshal body = (some r, none) ∧
        r.Code = (unmarshal body { Code := "", Message := "", RequestId := "", BizId := "" }).2.Code ∧
        r.Message
          = (unmarshal body { Code := "", Message := "", RequestId := "", BizId := "" }).2.Message ∧
        r.RequestId
          = (unmarshal body { Code := "", Message := "", RequestId := "", BizId := "" }).2.RequestId ∧
        r.BizId
          = (unmarshal body { Code := "", Message := "", RequestId := "", BizId := "" }).2.BizId ∧
        (r.Success = true ↔ r.Code = "OK") ∧
        r.Data = some []) ∧
    (∀ err, (unmarshal body { Code := "", Message := "", RequestId := "", BizId := "" }).1
        = some err →
      parseResponse unmarshal body = (none, some err)) ∧
    ((parseResponse unmarshal body).1 = none ↔ (parseResponse unmarshal body).2 ≠ none) := by
  have hok : (unmarshal body { Code := "", Message := "", RequestId := "", BizId := "" }).1
      = none →
      parseResponse unmarshal body
        = (some
            { Success := decide ((unmarshal body
                { Code := "", Message := "", RequestId := "", BizId := "" }).2.Code = "OK"),
              Message := (unmarshal body
                { Code := "", Message := "", RequestId := "", BizId := "" }).2.Message,
              Code := (unmarshal body
                { Code := "", Message := "", RequestId := "", BizId := "" }).2.Code,
              RequestId := (unmarshal body
                { Code := "", Message := "", RequestId := "", BizId := "" }).2.RequestId,
              BizId := (unmarshal body
                { Code := "", Message := "", RequestId := "", BizId := "" }).2.BizId,
              Data := some [] }, none) := by
    intro h
    simp only [parseResponse, h]
  have herr : ∀ err,
      (unmarshal body { Code := "", Message := "", RequestId := "", BizId := "" }).1 = some err →
      parseResponse unmarshal body = (none, some err) := by
    intro err h
    simp only [parseResponse, h]
  refine ⟨fun h => ⟨_, hok h, rfl, rfl, rfl, rfl, by simp, rfl⟩, herr, ?_⟩
  cases h : (unmarshal body { Code := "", Message := "", RequestId := "", BizId := "" }).1 with
  | none => rw [hok h]; simp
  | some e => rw [herr e h]; simp

/-- Witness for C12: the rejection body of the second end-to-end scenario
decodes without error and gives a response with `Success` false and the
provider's code; a body that does not decode gives the error and no response. -/
theorem parseResponse_spec_witness :
    parseResponse exampleUnmarshal
        "\x7b\"Code\":\"isv.BUSINESS_LIMIT_CONTROL\",\"Message\":\"triggered\"\x7d"
      = (some { Success := false, Message := "triggered", Code := "isv.BUSINESS_LIMIT_CONTROL",
                RequestId := "", BizId := "", Data := some [] }, none) ∧
    (exampleUnmarshal "oops" { Code := "", Message := "", RequestId := "", BizId := "" }).1
      = some "invalid character" ∧
    parseResponse exampleUnmarshal "oops" = (none, some "invalid character") :=
  ⟨by decide, by decide,
   (parseResponse_spec exampleUnmarshal "oops").2.1 "invalid character" (by decide)⟩

end GoSmsSdk
